import Mathlib

/-!
Verification of the request-dispatch and event-attribution engine of the
trackedit dispatcher worker (src/rules.ts, src/index.ts) against its
natural-language specification.

Strings are modeled as Lean strings or, where the source scans character by
character, as the underlying character list (abbreviated Str).  JavaScript
32-bit integer operations are modeled on Nat/Int with explicit reduction
modulo 2 ^ 32; the ambient clock, the random draw, freshly minted UUIDs and
the external key-value / database lookups are passed in as explicit
arguments.
-/

namespace Dispatcher

/-- Character-list view of a JavaScript string. -/
abbrev Str := List Char

/-! ## Rule resolver (rules.ts, getKVRule)

The KV store is modeled as a pure lookup function from keys to stored
bundles (the bundle payload type is abstract).  The while-loop of getKVRule
walks from the full request path up to the root; it is modeled with an
explicit fuel argument (each strip of the last path segment shortens the
current path, so path.length + 2 steps always suffice, see
getKVRuleGo_fuel_enough below). -/

/-- currentPath.endsWith the slash character (rules.ts 3296, 3307). -/
def endsWithSlash (s : Str) : Bool := s.getLast? == some '/'

/-- Index of the last slash of the string, none when absent; this is
currentPath.lastIndexOf of rules.ts 3324 with the -1 result mapped to none. -/
def lastSlashPos : Str → Option Nat
  | [] => none
  | c :: t =>
    match lastSlashPos t with
    | some i => some (i + 1)
    | none => if c = '/' then some 0 else none

/-- One strip step of the resolver loop (rules.ts 3323-3329): take the
prefix before the last slash when that slash is at a positive index,
otherwise fall back to the root path. -/
def parentPath (cur : Str) : Str :=
  match lastSlashPos cur with
  | some i => if 0 < i then cur.take i else ['/']
  | none => ['/']

/-- Early-return composition: the value of an if (hit) return hit chain. -/
def orElseO {β : Type} (x : Option β) (y : Option β) : Option β :=
  match x with
  | some hit => some hit
  | none => y

/-- Query the KV store at one key, pairing the stored bundle with the key
that produced it. -/
def tryKey {α : Type} (kv : Str → Option α) (key : Str) : Option (α × Str) :=
  (kv key).map fun r => (r, key)

/-- The body of the while-loop of getKVRule (rules.ts 3285-3330), with the
KV store abstracted to a pure lookup and the iteration bounded by fuel.
At each current path it tries the exact domain ++ path key, then the
variant without the trailing slash (when one is present and the path is
not the root), then the variant with a trailing slash appended (when
absent and the path is not the root), then strips the last path segment
and repeats, stopping at the root path.  The if (ruleJson) return early
returns of the source are the orElseO chain. -/
def getKVRuleGo {α : Type} (kv : Str → Option α) (domain : Str) :
    Nat → Str → Option (α × Str)
  | 0, _ => none
  | Nat.succ fuel, currentPath =>
    orElseO (tryKey kv (domain ++ currentPath))
      (orElseO
        (if endsWithSlash currentPath = true ∧ 1 < currentPath.length then
          tryKey kv (domain ++ currentPath).dropLast
         else none)
        (orElseO
          (if (¬ endsWithSlash currentPath = true) ∧ currentPath ≠ ['/'] then
            tryKey kv (domain ++ currentPath ++ ['/'])
           else none)
          (if currentPath = ['/'] then none
           else getKVRuleGo kv domain fuel (parentPath currentPath))))

/-- getKVRule (rules.ts 3280-3350): run the loop from the request path,
then, only when the request path is exactly the root, try the bare domain
key (the compatibility fallback of rules.ts 3335-3343). -/
def getKVRule {α : Type} (kv : Str → Option α) (domain path : Str) :
    Option (α × Str) :=
  orElseO (getKVRuleGo kv domain (path.length + 2) path)
    (if path = ['/'] then tryKey kv domain else none)

/-- Modelled from the spec wording of section 4.3 / claim C1: the ordered
list of path suffixes whose keys the resolver tries while walking from the
full request path down to the root: at each step the exact current path,
then the trailing-slash variant (removing the slash when present and the
path is not the root, adding it when absent), then the parent path. -/
def ruleLookupKeysGo : Nat → Str → List Str
  | 0, _ => []
  | Nat.succ fuel, cur =>
    [cur]
    ++ (if endsWithSlash cur = true ∧ 1 < cur.length then [cur.dropLast] else [])
    ++ (if (¬ endsWithSlash cur = true) ∧ cur ≠ ['/'] then [cur ++ ['/']] else [])
    ++ (if cur = ['/'] then [] else ruleLookupKeysGo fuel (parentPath cur))

/-- Modelled from the spec wording of section 4.3 / claim C1: the full
ordered candidate key list for a request: the walked keys prefixed with the
domain, followed by the bare domain key exactly when the request path is
the root. -/
def ruleLookupKeys (domain path : Str) : List Str :=
  (ruleLookupKeysGo (path.length + 2) path).map (domain ++ ·)
  ++ (if path = ['/'] then [domain] else [])

/-- First key of the candidate list that is present in the KV store,
together with its stored bundle. -/
def firstHit {α : Type} (kv : Str → Option α) : List Str → Option (α × Str)
  | [] => none
  | k :: ks =>
    match kv k with
    | some r => some (r, k)
    | none => firstHit kv ks

/-- Concrete KV fixture for the C1 witness: bundles stored at
host/products/item and at host/products (the observable-ordering example of
the spec). -/
def exKV : Str → Option Nat := fun k =>
  if k = ("host/products/item").data then some 1
  else if k = ("host/products").data then some 2
  else none

/-! ## Weighted selector (rules.ts, applyKVRule 2555-2607 and 2212-2255)

JS numbers are modeled as rationals.  The rule weight field is optional
(weight?: number); the JS expression weight-or-100 (spelled with the JS
or-else operator) falls back to the default both when the field is absent
and when it is 0, which effWeight captures.  Math.random() * totalWeight
is modeled by passing the draw x (and the uniform r with x = r * total)
explicitly. -/

/-- The effective weight of one entry: the stored weight unless it is
absent or zero, in which case the default (100 for rules, 1 for
destinations). -/
def effWeight (w : Option ℚ) (dflt : ℚ) : ℚ :=
  match w with
  | none => dflt
  | some v => if v = 0 then dflt else v

/-- totalWeight (rules.ts 2557): the reduce of effective weights. -/
def totalWeight (ws : List (Option ℚ)) (dflt : ℚ) : ℚ :=
  ws.foldl (fun sum w => sum + effWeight w dflt) 0

/-- The selection loop (rules.ts 2561-2568): accumulate weights and return
the first index whose cumulative weight reaches the draw. -/
def selectWeightedGo (dflt x : ℚ) : List (Option ℚ) → ℚ → Nat → Option Nat
  | [], _, _ => none
  | w :: ws, currentWeight, i =>
    let cw := currentWeight + effWeight w dflt
    if x ≤ cw then some i else selectWeightedGo dflt x ws cw (i + 1)

/-- Weighted index selection starting from zero accumulated weight. -/
def selectWeightedIndex (ws : List (Option ℚ)) (dflt x : ℚ) : Option Nat :=
  selectWeightedGo dflt x ws 0 0

/-- Rule selection (rules.ts 2555-2568, also the click-out variant at
2212-2227): default weight 100. -/
def selectRuleIndex (ws : List (Option ℚ)) (x : ℚ) : Option Nat :=
  selectWeightedIndex ws 100 x

/-- Destination selection inside the chosen rule (rules.ts 2579-2593):
default weight 1, falling back to the first destination when the loop
selects nothing (rules.ts 2585). -/
def selectDestIndex (ws : List (Option ℚ)) (x : ℚ) : Nat :=
  (selectWeightedIndex ws 1 x).getD 0

/-- Cumulative effective weight of the first i entries. -/
def cumWeight (ws : List (Option ℚ)) (dflt : ℚ) (i : Nat) : ℚ :=
  ((ws.take i).map (effWeight · dflt)).sum

/-! ## Event emission (rules.ts, storeEvent 166-269 and storeConversion
271-300)

The store is external; the pure model returns the row handed to the
single INSERT of storeInPlanetScale (rules.ts 99-162), or none when the
emission is skipped.  The row keeps the identity and linkage columns; the
pass-through request-context columns (geo, UA, network) are carried
verbatim by the source and are not repeated here.  The or-null defaults of
storeInPlanetScale are applied in the row construction; the
JSON.stringify of postbackData is kept as the key-value list itself. -/

/-- JS String.prototype.trim: strip whitespace from both ends (modeled on
the character list). -/
def strTrim (s : String) : String :=
  String.mk (((s.data.dropWhile Char.isWhitespace).reverse.dropWhile
    Char.isWhitespace).reverse)

structure StoreEventInput where
  eventId : String
  sessionId : String
  campaignId : String
  isImpression : Bool
  isClick : Bool

structure EventsRow where
  event_id : String
  session_id : Option String
  campaign_id : Option String
  is_impression : Bool
  is_click : Bool
  is_conversion : Bool
  click_id : Option String := none
  payout : Option ℚ := none
  conversion_type : Option String := none
  postback_data : Option (List (String × String)) := none
  deriving DecidableEq

/-- storeEvent (rules.ts 166-269): the orphan guard of lines 212-217
rejects the row when campaignId is falsy or trims to the empty string;
otherwise one unified events row with is_conversion false is handed to the
store. -/
def storeEvent (e : StoreEventInput) : Option EventsRow :=
  if e.campaignId = "" ∨ strTrim e.campaignId = "" then none
  else
    some { event_id := e.eventId
           session_id := some e.sessionId
           campaign_id := some e.campaignId
           is_impression := e.isImpression
           is_click := e.isClick
           is_conversion := false }

structure StoreConversionInput where
  conversionId : String
  clickId : String
  impressionId : String
  sessionId : String
  campaignId : String
  payout : ℚ
  conversionType : String
  postbackData : List (String × String)

/-- storeConversion (rules.ts 271-300): unconditionally hands a conversion
row to the store; a falsy sessionId / campaignId / clickId / payout /
conversionType becomes null (the or-null of the call site and of
storeInPlanetScale), there is no orphan guard. -/
def storeConversion (c : StoreConversionInput) : Option EventsRow :=
  some { event_id := c.conversionId
         session_id := if c.sessionId = "" then none else some c.sessionId
         campaign_id := if c.campaignId = "" then none else some c.campaignId
         is_impression := false
         is_click := false
         is_conversion := true
         click_id := if c.clickId = "" then none else some c.clickId
         payout := if c.payout = 0 then none else some c.payout
         conversion_type := if c.conversionType = "" then none else some c.conversionType
         postback_data := some c.postbackData }

/-- Concrete fixtures for the C8 counterexample and witness. -/
def exOrphanEvent : StoreEventInput :=
  { eventId := "evt-1", sessionId := "s1", campaignId := "",
    isImpression := true, isClick := false }

def exOkEvent : StoreEventInput :=
  { eventId := "evt-2", sessionId := "s1", campaignId := "camp-1",
    isImpression := true, isClick := false }

def exOrphanConversion : StoreConversionInput :=
  { conversionId := "conv-1", clickId := "click-1", impressionId := "imp-1",
    sessionId := "s1", campaignId := "", payout := 5, conversionType := "sale",
    postbackData := [] }

/-! ## Request context (rules.ts, interface RequestData 723-769)

Nullable TS fields become Option; the header / query objects become
key-value lists looked up by first match (object keys are unique); the
evaluation instant of the time flag (new Date in rules.ts 1853) is carried
as minutes since UTC midnight.  JS strings compare by code units; all the
characters involved here are compared by Lean character equality. -/

structure UserAgentData where
  browser : Option String := none
  browserVersion : Option String := none
  os : Option String := none
  osVersion : Option String := none
  device : Option String := none
  brand : Option String := none
  model : Option String := none
  arch : Option String := none
  raw : Option String := none

structure GeoData where
  country : Option String := none
  city : Option String := none
  continent : Option String := none
  latitude : Option String := none
  longitude : Option String := none
  region : Option String := none
  regionCode : Option String := none
  timezone : Option String := none
  postalCode : Option String := none

structure CfData where
  asn : Option Int := none
  asOrganization : Option String := none
  colo : Option String := none
  clientTrustScore : Option Int := none
  httpProtocol : Option String := none
  tlsVersion : Option String := none
  tlsCipher : Option String := none

structure RequestData where
  domain : Option String := none
  path : Str := ['/']
  query : List (String × String) := []
  headers : List (String × String) := []
  ip : Option String := none
  org : Option String := none
  referrer : Option String := none
  isEmbedRequest : Bool := false
  sessionId : Option String := none
  impressionId : Option String := none
  botScore : Option Int := none
  isVerifiedBot : Bool := false
  clientTrustScore : Option Int := none
  userAgent : UserAgentData := {}
  isBot : Bool := false
  geo : GeoData := {}
  cf : CfData := {}
  /-- Minutes since UTC midnight of the evaluation instant: the
  currentHourUTC * 60 + currentMinuteUTC of rules.ts 1853-1856, with the
  ambient clock passed in explicitly. -/
  currentTimeInMinutes : Int := 0

/-- Lookup in a JS object modeled as a key-value list with unique keys. -/
def lookupField (m : List (String × String)) (k : String) : Option String :=
  (m.find? fun p => p.1 == k).map (·.2)

/-! ## Matcher (rules.ts, checkSingleRule 1749-1909)

A flag value is a scalar or a list (TS string or string array); the
source guards each field with JS truthiness, so an empty-string or zero
scalar is skipped exactly like an absent field, while the empty list is
truthy and runs the check. -/

inductive OrList (α : Type) where
  | one : α → OrList α
  | many : List α → OrList α

/-- The scalar-to-singleton view used by the source (Array.isArray test). -/
def OrList.toList {α : Type} : OrList α → List α
  | .one a => [a]
  | .many l => l

/-- JS truthiness of a string-or-array flag value. -/
def truthyStrFlag : OrList String → Bool
  | .one s => !s.isEmpty
  | .many _ => true

/-- JS truthiness of a number-or-array flag value. -/
def truthyIntFlag : OrList Int → Bool
  | .one n => decide (n ≠ 0)
  | .many _ => true

/-- The anyOf helper of checkSingleRule (rules.ts 1756-1760), for a
present flag value: OR over the list, plain compare for a scalar. -/
def anyOf {α : Type} (candidate : Option α) (expected : OrList α)
    (cmp : Option α → α → Bool) : Bool :=
  match expected with
  | .one e => cmp candidate e
  | .many l => l.any (cmp candidate)

/-- time: {start, end} of RuleFlags (rules.ts 631-634); stop models the
end field (end is a Lean keyword); fractional UTC hours as rationals. -/
structure TimeRange where
  start : ℚ
  stop : ℚ

structure RuleFlags where
  country : Option (OrList String) := none
  language : Option (OrList String) := none
  time : Option TimeRange := none
  params : Option (List (String × String)) := none
  device : Option (OrList String) := none
  browser : Option (OrList String) := none
  os : Option (OrList String) := none
  brand : Option (OrList String) := none
  region : Option (OrList String) := none
  org : Option (OrList String) := none
  city : Option (OrList String) := none
  continent : Option (OrList String) := none
  asn : Option (OrList Int) := none
  colo : Option (OrList String) := none
  ip : Option (OrList String) := none

/-! JS 32-bit number model for the IP helpers (rules.ts 1563-1597).
JSNum is a JS number that may be NaN (none); the shift operators coerce
NaN to 0 via ToInt32, addition propagates NaN, and the unsigned-shift
result of ipToLong is a Nat below 2 ^ 32. -/

abbrev JSNum := Option Int

def toUInt32 (n : Int) : Nat := (n % (2 ^ 32 : Int)).toNat

def toInt32 (n : Int) : Int :=
  let m := n % (2 ^ 32 : Int)
  if m < 2 ^ 31 then m else m - 2 ^ 32

def jsNumToInt32 : JSNum → Int
  | none => 0
  | some n => toInt32 n

def jsNumToUInt32 : JSNum → Nat
  | none => 0
  | some n => toUInt32 n

def jsAdd : JSNum → JSNum → JSNum
  | some a, some b => some (a + b)
  | _, _ => none

def jsSub : JSNum → JSNum → JSNum
  | some a, some b => some (a - b)
  | _, _ => none

/-- JS left shift: ToInt32 the operand, mask the count to five bits. -/
def jsShl (a b : JSNum) : JSNum :=
  some (toInt32 (jsNumToInt32 a * 2 ^ (match b with
    | none => 0
    | some x => (x % 32).toNat)))

/-- JS String.prototype.split at a separator character; always returns at
least one (possibly empty) piece. -/
def splitOnChar (sep : Char) : Str → List Str
  | [] => [[]]
  | c :: t =>
    if c = sep then [] :: splitOnChar sep t
    else
      match splitOnChar sep t with
      | h :: r => (c :: h) :: r
      | [] => [[c]]

/-- parseInt with radix 10 on a well-formed-or-not string: skip leading
whitespace, optional sign, then the leading digit run; none models NaN. -/
def digitsPrefixVal (s : Str) : Option Nat :=
  let ds := s.takeWhile Char.isDigit
  if ds.isEmpty then none
  else some (ds.foldl (fun a c => a * 10 + (c.toNat - 48)) 0)

def parseIntJS (s : String) : JSNum :=
  match s.data.dropWhile Char.isWhitespace with
  | '-' :: rest => (digitsPrefixVal rest).map fun n => -(n : Int)
  | '+' :: rest => (digitsPrefixVal rest).map fun n => (n : Int)
  | t => (digitsPrefixVal t).map fun n => (n : Int)

/-- ipToLong (rules.ts 1594-1597): dotted-quad to unsigned 32-bit via the
JS shift-and-add reduce followed by an unsigned shift by zero. -/
def ipToLong (ip : String) : Nat :=
  jsNumToUInt32 ((splitOnChar '.' ip.data).foldl
    (fun long oct => jsAdd (jsShl long (some 8)) (parseIntJS (String.mk oct)))
    (some 0))

/-- Case-insensitive glob match: a star matches any run of characters,
every other character is literal.  This models the regexes the source
builds after escaping the metacharacters (matchWildcard, rules.ts
1599-1609) or the dots (the star branch of isIpInRange, rules.ts
1583-1588). -/
def globMatch : Str → Str → Bool
  | [], [] => true
  | [], _ :: _ => false
  | '*' :: ps, [] => globMatch ps []
  | '*' :: ps, c :: ts => globMatch ps (c :: ts) || globMatch ('*' :: ps) ts
  | _ :: _, [] => false
  | p :: ps, c :: ts => p == c && globMatch ps ts
  termination_by p t => (p.length, t.length)

/-- matchWildcard (rules.ts 1599-1609): falsy text never matches; glob
with star, case-insensitive. -/
def matchWildcard (text : String) (pattern : String) : Bool :=
  if text.isEmpty then false
  else globMatch (pattern.data.map Char.toLower) (text.data.map Char.toLower)

/-- isIpInRange (rules.ts 1563-1592): CIDR, hyphen range, star wildcard,
else exact.  The signed-and compare of the CIDR branch is modeled on the
unsigned 32-bit representatives, which decides the same equality. -/
def isIpInRange (ip range : String) : Bool :=
  if range.data.contains '/' then
    let parts := splitOnChar '/' range.data
    let baseIp := String.mk (parts.headD [])
    let bits := String.mk ((parts.drop 1).headD [])
    let mask := parseIntJS bits
    let ipLong := ipToLong ip
    let rangeLong := ipToLong baseIp
    let maskLong := jsNumToUInt32 (jsShl (some 0xffffffff) (jsSub (some 32) mask))
    Nat.land ipLong maskLong == Nat.land rangeLong maskLong
  else if range.data.contains '-' then
    let parts := splitOnChar '-' range.data
    let start := String.mk (parts.headD [])
    let stop := String.mk ((parts.drop 1).headD [])
    let ipLong := ipToLong ip
    let startLong := ipToLong start
    let endLong := ipToLong stop
    decide (startLong ≤ ipLong) && decide (ipLong ≤ endLong)
  else if range.data.contains '*' then
    globMatch (range.data.map Char.toLower) (ip.data.map Char.toLower)
  else ip == range

/-- Math.round: half away from zero upward (floor of x plus one half). -/
def jsRound (q : ℚ) : Int := (q + 1 / 2).floor

/-- First piece of a split at a character (split(c)[0]). -/
def firstSplit (sep : Char) (s : String) : String :=
  String.mk (s.data.takeWhile (· ≠ sep))

/-- One optional-field contribution to the flagChecks list of
checkSingleRule: nothing when the field is absent (or JS-falsy), the
check verdict when present. -/
def flagContrib {α : Type} (o : Option α) (truthy : α → Bool)
    (check : α → Bool) : List Bool :=
  match o with
  | none => []
  | some v => if truthy v then [check v] else []

/-- params check (rules.ts 1762-1779): on an asset request the check is
false outright; otherwise every configured parameter must equal the query
value. -/
def checkParamsFlag (data : RequestData) (isAssetRequest : Bool)
    (ps : List (String × String)) : Bool :=
  if isAssetRequest then false
  else ps.all fun kv => lookupField data.query kv.1 == some kv.2

/-- Equality field check against a nullable candidate (null equals
nothing). -/
def eqFlagCheck (candidate : Option String) (v : OrList String) : Bool :=
  anyOf candidate v fun a b => a == some b

def eqIntFlagCheck (candidate : Option Int) (v : OrList Int) : Bool :=
  anyOf candidate v fun a b => a == some b

/-- ip check (rules.ts 1824-1831): needs a client ip, OR over ranges. -/
def checkIpFlag (data : RequestData) (v : OrList String) : Bool :=
  match data.ip with
  | some ipv => if ipv.isEmpty then false else v.toList.any (isIpInRange ipv)
  | none => false

/-- org check (rules.ts 1834-1839): needs a client org, OR over wildcard
patterns. -/
def checkOrgFlag (data : RequestData) (v : OrList String) : Bool :=
  match data.org with
  | some o => if o.isEmpty then false else v.toList.any (matchWildcard o)
  | none => false

/-- language check (rules.ts 1842-1849): primary subtag of the first
accept-language entry, lowercased, equality with any expected value. -/
def checkLanguageFlag (data : RequestData) (v : OrList String) : Bool :=
  let acceptLang := (lookupField data.headers "accept-language").getD ""
  let primaryLang :=
    String.map Char.toLower (firstSplit '-' (firstSplit ',' acceptLang))
  v.toList.any fun l => primaryLang == l

/-- time check (rules.ts 1852-1874): start and end fractional hours are
split into floor hours and rounded minutes; the now minute must lie in the
half-open window. -/
def checkTimeFlag (data : RequestData) (t : TimeRange) : Bool :=
  let startHour := t.start.floor
  let startMinute := jsRound ((t.start - startHour) * 60)
  let startTimeInMinutes := startHour * 60 + startMinute
  let endHour := t.stop.floor
  let endMinute := jsRound ((t.stop - endHour) * 60)
  let endTimeInMinutes := endHour * 60 + endMinute
  decide (startTimeInMinutes ≤ data.currentTimeInMinutes) &&
    decide (data.currentTimeInMinutes < endTimeInMinutes)

/-- JS String.prototype.includes: the needle occurs contiguously in the
haystack. -/
def isInfixB (needle : Str) : Str → Bool
  | [] => needle.isEmpty
  | c :: t => needle.isPrefixOf (c :: t) || isInfixB needle t

/-- os check (rules.ts 1891-1896): substring containment, OR over the
expected values, false without a parsed os. -/
def checkOsFlag (data : RequestData) (v : OrList String) : Bool :=
  match data.userAgent.os with
  | some o => if o.isEmpty then false else v.toList.any fun e => isInfixB e.data o.data
  | none => false

/-- checkSingleRule (rules.ts 1749-1909), boolean verdict: the pushes on
the flagChecks array become list concatenation in source order, and the
final flagChecks.every(check => check) is List.all.  The human-readable
matchedFlags descriptors the source returns alongside are logging output
and are not modeled. -/
def checkSingleRule (data : RequestData) (flags : RuleFlags)
    (isAssetRequest : Bool) : Bool :=
  let flagChecks : List Bool :=
    flagContrib flags.params (fun _ => true) (checkParamsFlag data isAssetRequest)
    ++ flagContrib flags.country truthyStrFlag (eqFlagCheck data.geo.country)
    ++ flagContrib flags.region truthyStrFlag (eqFlagCheck data.geo.regionCode)
    ++ flagContrib flags.city truthyStrFlag (eqFlagCheck data.geo.city)
    ++ flagContrib flags.continent truthyStrFlag (eqFlagCheck data.geo.continent)
    ++ flagContrib flags.asn truthyIntFlag (eqIntFlagCheck data.cf.asn)
    ++ flagContrib flags.colo truthyStrFlag (eqFlagCheck data.cf.colo)
    ++ flagContrib flags.ip truthyStrFlag (checkIpFlag data)
    ++ flagContrib flags.org truthyStrFlag (checkOrgFlag data)
    ++ flagContrib flags.language truthyStrFlag (checkLanguageFlag data)
    ++ flagContrib flags.time (fun _ => true) (checkTimeFlag data)
    ++ flagContrib flags.device truthyStrFlag (eqFlagCheck data.userAgent.device)
    ++ flagContrib flags.browser truthyStrFlag (eqFlagCheck data.userAgent.browser)
    ++ flagContrib flags.os truthyStrFlag (checkOsFlag data)
    ++ flagContrib flags.brand truthyStrFlag (eqFlagCheck data.userAgent.brand)
  flagChecks.all fun b => b

/-- One field of the spec reading of the matcher: an absent field always
matches (and a JS-falsy scalar is skipped by the source exactly like an
absent field); a present field must pass its check, where a list value is
an OR over its elements. -/
def fieldHolds {α : Type} (o : Option α) (truthy : α → Bool)
    (check : α → Bool) : Bool :=
  match o with
  | none => true
  | some v => !truthy v || check v

/-- Modelled from the spec wording of section 4.5 / claim C2: fields AND
across one another, each present field must match, a missing field is a
do-not-care; the per-field predicates are shared with the code model. -/
def specFlagSetMatches (data : RequestData) (flags : RuleFlags)
    (isAssetRequest : Bool) : Bool :=
  fieldHolds flags.params (fun _ => true) (checkParamsFlag data isAssetRequest)
  && fieldHolds flags.country truthyStrFlag (eqFlagCheck data.geo.country)
  && fieldHolds flags.region truthyStrFlag (eqFlagCheck data.geo.regionCode)
  && fieldHolds flags.city truthyStrFlag (eqFlagCheck data.geo.city)
  && fieldHolds flags.continent truthyStrFlag (eqFlagCheck data.geo.continent)
  && fieldHolds flags.asn truthyIntFlag (eqIntFlagCheck data.cf.asn)
  && fieldHolds flags.colo truthyStrFlag (eqFlagCheck data.cf.colo)
  && fieldHolds flags.ip truthyStrFlag (checkIpFlag data)
  && fieldHolds flags.org truthyStrFlag (checkOrgFlag data)
  && fieldHolds flags.language truthyStrFlag (checkLanguageFlag data)
  && fieldHolds flags.time (fun _ => true) (checkTimeFlag data)
  && fieldHolds flags.device truthyStrFlag (eqFlagCheck data.userAgent.device)
  && fieldHolds flags.browser truthyStrFlag (eqFlagCheck data.userAgent.browser)
  && fieldHolds flags.os truthyStrFlag (checkOsFlag data)
  && fieldHolds flags.brand truthyStrFlag (eqFlagCheck data.userAgent.brand)

/-! ## Asset detection (rules.ts, applyKVRule 1924-1943) -/

def ASSET_EXTENSIONS : List String :=
  ["css", "js", "mjs", "jsx", "ts", "tsx", "png", "jpg", "jpeg", "gif",
   "svg", "webp", "ico", "json", "map", "woff", "woff2", "ttf", "otf",
   "eot", "mp4", "webm", "ogg", "mp3", "wav", "pdf", "txt", "xml", "csv",
   "wasm", "zip", "gz", "br", "avif", "heic", "webmanifest"]

/-- The clean prefix of getPathExtension (rules.ts 1929): the path before
any query or fragment character (split at the separator, first piece). -/
def pathClean (p : Str) : Str :=
  (p.takeWhile (· ≠ '?')).takeWhile (· ≠ '#')

/-- The last path segment (rules.ts 1930): the run after the last slash,
that is split-at-slash pop. -/
def pathLastSegment (p : Str) : Str :=
  ((pathClean p).reverse.takeWhile (· ≠ '/')).reverse

/-- getPathExtension (rules.ts 1928-1934): when the last segment contains
a dot, the lowercased run after its last dot (split-at-dot pop of the
source), else the empty string. -/
def getPathExtension (p : Str) : String :=
  if (pathLastSegment p).contains '.' then
    String.mk ((((pathLastSegment p).reverse.takeWhile (· ≠ '.')).reverse).map
      Char.toLower)
  else ""

def endsWithStr (suffix : String) (p : Str) : Bool := suffix.data.isSuffixOf p

/-- isPageLike (rules.ts 1936-1942). -/
def isPageLike (p : Str) : Bool :=
  decide (p = ['/']) || endsWithStr ".html" p || endsWithStr ".htm" p ||
    decide (getPathExtension p = "") ||
    (decide (getPathExtension p ≠ "") &&
      !(ASSET_EXTENSIONS.contains (getPathExtension p)))

/-- isAssetRequest (rules.ts 1943). -/
def isAssetRequestOf (p : Str) : Bool := !isPageLike p

/-! ## Click-out query handling (rules.ts, applyKVRule 2262-2390)

The query maps are key-value lists in JS object insertion order.  The
merge of the recovered impression query into the current query is the JS
object spread of rules.ts 2274; building the Location query models the
URLSearchParams.set calls of rules.ts 2300-2307 on the parameter list of
the macro-expanded destination URL (the URL parse itself is the platform
URL constructor and enters as the destParams argument). -/

abbrev Query := List (String × String)

/-- Object property lookup: first entry with the key. -/
def qlookup (q : Query) (k : String) : Option String :=
  (q.find? fun p => p.1 == k).map (·.2)

/-- The spread merge spread-impression-then-spread-current (rules.ts
2274): impression keys first with current values overriding, then the
current entries with new keys. -/
def mergeQuery (impQ curQ : Query) : Query :=
  impQ.map (fun kv => (kv.1, (qlookup curQ kv.1).getD kv.2))
  ++ curQ.filter fun kv => (qlookup impQ kv.1).isNone

/-- URLSearchParams.set on an existing key: the first entry is replaced
and any further entries with the key are dropped. -/
def setParamGo (k v : String) : Query → Query
  | [] => []
  | (k2, v2) :: t =>
    if k2 == k then (k, v) :: t.filter (fun kv => !(kv.1 == k))
    else (k2, v2) :: setParamGo k v t

/-- URLSearchParams.set: replace in place when the key exists, else
append. -/
def setParam (ps : Query) (k v : String) : Query :=
  if ps.any (fun kv => kv.1 == k) then setParamGo k v ps else ps ++ [(k, v)]

/-- The Location query of the click-out redirect (rules.ts 2297-2307):
set every entry of the merged query on the destination parameters, then
set click_id, impression_id and session_id. -/
def buildClickRedirectParams (destParams impQ curQ : Query)
    (clickId impressionId sessionId : String) : Query :=
  setParam (setParam (setParam
    ((mergeQuery impQ curQ).foldl (fun acc kv => setParam acc kv.1 kv.2) destParams)
    "click_id" clickId) "impression_id" impressionId) "session_id" sessionId

/-! ## Macro engine (rules.ts, replaceMacros 3472-3507, replaceMacrosInUrl
3514-3532, populateMacros 1444-1561)

The regex global replaces are modeled as left-to-right scanners over the
character list with the exact match shape of the patterns: a double brace,
a nonempty run of non-closing-brace characters (greedy, which for this
pattern is the maximal run), and a closing double brace; on a failed
attempt the scan advances one character, as the regex engine does.  The
variables object is a key-value list in insertion order; the lowercased
lookup map assigns later entries over earlier ones, hence lookup of the
last matching entry. -/

def toLowerStr (s : String) : String := String.mk (s.data.map Char.toLower)

/-- The lowercase lookup map of both replace functions (rules.ts
3477-3481 and 3517-3521) applied to a macro name: value of the last
variables entry whose lowercased key equals the lowercased name. -/
def lookupMacro (vars : List (String × String)) (name : String) :
    Option String :=
  (vars.reverse.find? fun p => toLowerStr p.1 == toLowerStr name).map (·.2)

/-- Decimal rendering of the escape counter (JS number-to-string). -/
lemma scanStepLt (n m : Nat) (p : Char → Bool) (l : Str) :
    (((l.drop n).dropWhile p).drop m).length < l.length + 1 := by
  have h1 : ((l.drop n).dropWhile p).length ≤ (l.drop n).length :=
    (List.dropWhile_sublist _).length_le
  simp only [List.length_drop] at *
  omega

def natDecimal (n : Nat) : Str :=
  if n < 10 then [Char.ofNat (48 + n)]
  else natDecimal (n / 10) ++ [Char.ofNat (48 + n % 10)]

/-- The character sanitizer of the placeholder (rules.ts 3486): every
character outside word characters becomes an underscore. -/
def sanitizeChar (c : Char) : Char :=
  if c.isAlphanum || c = '_' then c else '_'

/-- The placeholder inserted for an escaped macro (rules.ts 3486). -/
def placeholderOf (name : Str) (k : Nat) : Str :=
  ("__ESC_").data ++ name.map sanitizeChar ++ '_' :: natDecimal k ++ ("__").data

/-- Step 1 of replaceMacros (rules.ts 3484-3489): replace every escaped
macro with a fresh counter-indexed placeholder, recording the literal
(without the bang) it must be restored to. -/
def protectEsc (k : Nat) : Str → Str × List (Str × Str)
  | [] => ([], [])
  | c :: rest =>
    if c = '{' ∧ rest.take 2 = ['{', '!'] then
      let body := rest.drop 2
      let r := body.takeWhile (· ≠ '}')
      let rest2 := body.dropWhile (· ≠ '}')
      if r ≠ [] ∧ rest2.take 2 = ['}', '}'] then
        let ph := placeholderOf r k
        let out := protectEsc (k + 1) (rest2.drop 2)
        (ph ++ out.1, (ph, '{' :: '{' :: (r ++ ['}', '}'])) :: out.2)
      else
        let out := protectEsc k rest
        (c :: out.1, out.2)
    else
      let out := protectEsc k rest
      (c :: out.1, out.2)
  termination_by s => s.length
  decreasing_by
  all_goals simp only [List.length_cons]
  all_goals first
    | exact scanStepLt 2 2 _ _
    | exact Nat.lt_succ_self _

/-- Step 2 of both replace functions (rules.ts 3492-3499 and 3524-3531):
replace every macro token, substituting via subst (which carries the
lookup and, for the URL variant, the percent-encoding) and leaving
unknown tokens verbatim. -/
def replaceTokens (subst : String → Option Str) : Str → Str
  | [] => []
  | c :: rest =>
    if c = '{' ∧ rest.take 1 = ['{'] then
      let body := rest.drop 1
      let r := body.takeWhile (· ≠ '}')
      let rest2 := body.dropWhile (· ≠ '}')
      if r ≠ [] ∧ rest2.take 2 = ['}', '}'] then
        match subst (String.mk r) with
        | some out => out ++ replaceTokens subst (rest2.drop 2)
        | none => '{' :: '{' :: (r ++ '}' :: '}' :: replaceTokens subst (rest2.drop 2))
      else c :: replaceTokens subst rest
    else c :: replaceTokens subst rest
  termination_by s => s.length
  decreasing_by
  all_goals simp only [List.length_cons]
  all_goals first
    | exact scanStepLt 1 2 _ _
    | exact Nat.lt_succ_self _

/-- Step 3 of replaceMacros (rules.ts 3502-3504): String.replaceAll of one
placeholder, non-overlapping left to right (placeholders are nonempty; an
empty pattern never arises). -/
def replaceAllL (pat rep : Str) : Str → Str
  | [] => []
  | c :: rest =>
    if h : pat ≠ [] ∧ pat.isPrefixOf (c :: rest) then
      rep ++ replaceAllL pat rep ((c :: rest).drop pat.length)
    else c :: replaceAllL pat rep rest
  termination_by s => s.length
  decreasing_by
  · simp only [List.length_cons, List.length_drop]
    have hp : 1 ≤ pat.length := by
      cases hpat : pat with
      | nil => exact absurd hpat h.1
      | cons a t => simp
    omega
  · simp

/-- replaceMacros (rules.ts 3472-3507): early return on an empty
variables map, then protect escapes, substitute, restore placeholders in
insertion order. -/
def replaceMacros (html : String) (vars : List (String × String)) : String :=
  if vars.isEmpty then html
  else
    let step1 := protectEsc 0 html.data
    let step2 := replaceTokens
      (fun name => (lookupMacro vars name).map String.data) step1.1
    String.mk (step1.2.foldl (fun acc pr => replaceAllL pr.1 pr.2 acc) step2)

/-- The characters encodeURIComponent leaves unescaped besides
alphanumerics. -/
def uriUnreservedMarks : List Char :=
  ['-', '_', '.', '!', '~', '*', Char.ofNat 39, '(', ')']

def hexDigitUpper (n : Nat) : Char :=
  if n < 10 then Char.ofNat (48 + n) else Char.ofNat (55 + n)

/-- UTF-8 bytes of one character (what encodeURIComponent escapes). -/
def utf8Bytes (c : Char) : List Nat :=
  let n := c.toNat
  if n < 0x80 then [n]
  else if n < 0x800 then [0xC0 + n / 64, 0x80 + n % 64]
  else if n < 0x10000 then
    [0xE0 + n / 4096, 0x80 + (n / 64) % 64, 0x80 + n % 64]
  else
    [0xF0 + n / 262144, 0x80 + (n / 4096) % 64, 0x80 + (n / 64) % 64,
     0x80 + n % 64]

/-- encodeURIComponent: unreserved characters pass, everything else is
percent-encoded as uppercase-hex UTF-8 bytes. -/
def encodeURIComponent (v : String) : String :=
  String.mk (v.data.foldr (fun c acc =>
    (if c.isAlphanum || uriUnreservedMarks.contains c then [c]
     else (utf8Bytes c).foldr (fun b bacc =>
       '%' :: hexDigitUpper (b / 16) :: hexDigitUpper (b % 16) :: bacc) []) ++ acc) [])

/-- The scan of replaceMacrosInUrl (rules.ts 3523-3531) over an already
populated variables list: like the HTML step 2 but with percent-encoded
substituted values and no escape protection. -/
def replaceMacrosInUrlCore (url : String)
    (allVariables : List (String × String)) : String :=
  String.mk (replaceTokens
    (fun name => (lookupMacro allVariables name).map fun v =>
      (encodeURIComponent v).data) url.data)

/-- MacroContext (rules.ts 1432-1442). -/
structure MacroContext where
  campaignId : Option String := none
  campaignName : Option String := none
  siteName : Option String := none
  clickId : Option String := none
  impressionId : Option String := none
  sessionId : Option String := none
  platformId : Option String := none
  platformName : Option String := none
  platformClickId : Option String := none

structure ColoLocation where
  city : Option String := none
  country : Option String := none
  region : Option String := none
  name : Option String := none

/-- Modelled from the spec: the colo-to-location data table
(colo-locations.json, consumed at rules.ts 16 and 1533, is not part of
the source tree); its entries do not bear on any claim and the table is
modeled as empty. -/
def COLO_LOCATIONS : String → Option ColoLocation := fun _ => none

/-- addVariable of populateMacros (rules.ts 1448-1453): record the value
(empty string for null) under the key and under its lowercase form; a
later record overrides earlier ones at lookup (lookupMacro takes the last
match, as the JS object assignment does). -/
def addVariable (key : String) (value : Option String) : List (String × String) :=
  [(key, value.getD ""), (toLowerStr key, value.getD "")]

/-- Sanitized query-parameter macro key part (rules.ts 1555). -/
def sanitizeKeyStr (s : String) : String :=
  String.mk (s.data.map fun c => if c.isAlphanum || c = '_' then c else '_')

/-- populateMacros (rules.ts 1444-1561): the rule or bundle variables
first, then every built-in macro in source order, then the dynamic query
macros. -/
def populateMacros (data : RequestData) (vars : List (String × String))
    (context : MacroContext) : List (String × String) :=
  vars
  ++ addVariable "campaign.id" context.campaignId
  ++ addVariable "campaign.ID" context.campaignId
  ++ addVariable "campaign.name" context.campaignName
  ++ addVariable "campaign.NAME" context.campaignName
  ++ addVariable "site.name" context.siteName
  ++ addVariable "site.NAME" context.siteName
  ++ addVariable "click.id" context.clickId
  ++ addVariable "click.ID" context.clickId
  ++ addVariable "impression.id" context.impressionId
  ++ addVariable "impression.ID" context.impressionId
  ++ addVariable "session.id" context.sessionId
  ++ addVariable "session.ID" context.sessionId
  ++ addVariable "platform.id" context.platformId
  ++ addVariable "platform.name" context.platformName
  ++ addVariable "platform.click_id" context.platformClickId
  ++ addVariable "user.IP" data.ip
  ++ addVariable "user.ip" data.ip
  ++ addVariable "user.CITY" data.geo.city
  ++ addVariable "user.city" data.geo.city
  ++ addVariable "user.City" data.geo.city
  ++ addVariable "user.COUNTRY" data.geo.country
  ++ addVariable "user.country" data.geo.country
  ++ addVariable "user.Country" data.geo.country
  ++ addVariable "user.GEO" data.geo.country
  ++ addVariable "user.COUNTRY_CODE" data.geo.country
  ++ addVariable "user.country_code" data.geo.country
  ++ addVariable "user.CONTINENT" data.geo.continent
  ++ addVariable "user.continent" data.geo.continent
  ++ addVariable "user.REGION_NAME" data.geo.region
  ++ addVariable "user.region_name" data.geo.region
  ++ addVariable "user.REGION_CODE" data.geo.regionCode
  ++ addVariable "user.region_code" data.geo.regionCode
  ++ addVariable "user.POSTAL_CODE" data.geo.postalCode
  ++ addVariable "user.postal_code" data.geo.postalCode
  ++ addVariable "user.LATITUDE" data.geo.latitude
  ++ addVariable "user.latitude" data.geo.latitude
  ++ addVariable "user.LONGITUDE" data.geo.longitude
  ++ addVariable "user.longitude" data.geo.longitude
  ++ addVariable "user.TIMEZONE" data.geo.timezone
  ++ addVariable "user.timezone" data.geo.timezone
  ++ addVariable "user.DEVICE" data.userAgent.device
  ++ addVariable "user.device" data.userAgent.device
  ++ addVariable "user.Device" data.userAgent.device
  ++ addVariable "user.BROWSER" data.userAgent.browser
  ++ addVariable "user.browser" data.userAgent.browser
  ++ addVariable "user.Browser" data.userAgent.browser
  ++ addVariable "user.BROWSER_VERSION" data.userAgent.browserVersion
  ++ addVariable "user.browser_version" data.userAgent.browserVersion
  ++ addVariable "user.OS" data.userAgent.os
  ++ addVariable "user.os" data.userAgent.os
  ++ addVariable "user.Os" data.userAgent.os
  ++ addVariable "user.OS_VERSION" data.userAgent.osVersion
  ++ addVariable "user.os_version" data.userAgent.osVersion
  ++ addVariable "user.BRAND" data.userAgent.brand
  ++ addVariable "user.brand" data.userAgent.brand
  ++ addVariable "user.MODEL" data.userAgent.model
  ++ addVariable "user.model" data.userAgent.model
  ++ addVariable "user.ARCH" data.userAgent.arch
  ++ addVariable "user.arch" data.userAgent.arch
  ++ addVariable "user.BOT_SCORE" (some ((data.botScore.map Int.repr).getD "0"))
  ++ addVariable "user.bot_score" (some ((data.botScore.map Int.repr).getD "0"))
  ++ addVariable "user.THREAT_SCORE"
      (some ((data.clientTrustScore.map Int.repr).getD "0"))
  ++ addVariable "user.threat_score"
      (some ((data.clientTrustScore.map Int.repr).getD "0"))
  ++ addVariable "user.IS_VERIFIED_BOT"
      (some (if data.isVerifiedBot then "true" else "false"))
  ++ addVariable "user.is_verified_bot"
      (some (if data.isVerifiedBot then "true" else "false"))
  ++ addVariable "user.ORGANIZATION" data.org
  ++ addVariable "user.organization" data.org
  ++ addVariable "user.REFERRER" data.referrer
  ++ addVariable "user.referrer" data.referrer
  ++ addVariable "user.COLO" data.cf.colo
  ++ addVariable "user.colo" data.cf.colo
  ++ addVariable "user.colo.city" ((data.cf.colo.bind COLO_LOCATIONS).bind (·.city))
  ++ addVariable "user.COLO.CITY" ((data.cf.colo.bind COLO_LOCATIONS).bind (·.city))
  ++ addVariable "user.colo.country"
      ((data.cf.colo.bind COLO_LOCATIONS).bind (·.country))
  ++ addVariable "user.COLO.COUNTRY"
      ((data.cf.colo.bind COLO_LOCATIONS).bind (·.country))
  ++ addVariable "user.colo.region"
      ((data.cf.colo.bind COLO_LOCATIONS).bind (·.region))
  ++ addVariable "user.COLO.REGION"
      ((data.cf.colo.bind COLO_LOCATIONS).bind (·.region))
  ++ addVariable "user.colo.name" ((data.cf.colo.bind COLO_LOCATIONS).bind (·.name))
  ++ addVariable "user.COLO.NAME" ((data.cf.colo.bind COLO_LOCATIONS).bind (·.name))
  ++ addVariable "user.ASN" (data.cf.asn.map Int.repr)
  ++ addVariable "user.asn" (data.cf.asn.map Int.repr)
  ++ addVariable "request.DOMAIN" data.domain
  ++ addVariable "request.domain" data.domain
  ++ addVariable "request.PATH" (some (String.mk data.path))
  ++ addVariable "request.path" (some (String.mk data.path))
  ++ (data.query.map fun kv =>
      addVariable ("query." ++ sanitizeKeyStr kv.1) (some kv.2)
      ++ addVariable ("query." ++ toLowerStr (sanitizeKeyStr kv.1)) (some kv.2)).flatten

/-- replaceMacrosInUrl (rules.ts 3514-3532): populate the macros from the
context and scan the URL with percent-encoding substitution. -/
def replaceMacrosInUrl (url : String) (data : RequestData)
    (vars : List (String × String)) (context : MacroContext) : String :=
  replaceMacrosInUrlCore url (populateMacros data vars context)

/-- Concrete fixtures for the C2 witness. -/
def exMatchData : RequestData :=
  { geo := { country := some "US", city := some "Boston" }
    query := [("utm", "x")] }

def exMatchFlags : RuleFlags :=
  { country := some (.many ["DE", "US"])
    params := some [("utm", "x")] }

/-! ## Redirect dispatch (rules.ts, redirect case of applyKVRule 2985-3112,
and the embed jsRedirect case 2742-2821)

The DB platform lookup (getPlatformInfoForCampaign), the fresh id of
generateUniqueId, and the generated session id are impure inputs of the
dispatch and enter the model as explicit arguments. -/

/-- JS String.prototype.replace with a string pattern: remove the first
occurrence of pat (the call site replaces with the empty string). -/
def replaceFirst : Str → Str → Str
  | [], _ => []
  | c :: rest, pat =>
    if pat ≠ [] ∧ pat.isPrefixOf (c :: rest) then (c :: rest).drop pat.length
    else c :: replaceFirst rest pat

/-- The /\/$/ replace of rules.ts 2990-2991: drop one trailing slash. -/
def stripTrailingSlash (s : Str) : Str :=
  if s.getLast? = some '/' then s.dropLast else s

/-- The rule path extracted from the rule key (rules.ts 2988): remove the
first occurrence of the domain, empty falling back to /. -/
def rulePathOfKey (ruleKey : Str) (domain : Option String) : Str :=
  let r := replaceFirst ruleKey (domain.getD "").data
  if r = [] then ['/'] else r

/-- Path normalization of the redirect case (rules.ts 2990-2991). -/
def normalizeRedirectPath (s : Str) : Str :=
  if s = [] then ['/'] else stripTrailingSlash s

/-- JS `a || b` on an optional string with string fallback. -/
def jsOrStr (o : Option String) (d : String) : String :=
  match o with
  | some s => if s = "" then d else s
  | none => d

/-- JS `v || undefined` / `v ? e : null` truthiness on an optional string. -/
def orUndef (o : Option String) : Option String :=
  match o with
  | some s => if s = "" then none else some s
  | none => none

def truthyOpt (o : Option String) : Bool :=
  match o with
  | some s => s ≠ ""
  | none => false

/-- Result of getPlatformInfoForCampaign (a D1 read), passed in. -/
structure PlatformLookup where
  platformId : Option String := none
  platformName : Option String := none
  clickIdParam : Option String := none

structure RedirectRule where
  id : String := ""
  name : Option String := none
  siteName : Option String := none
  destinationId : Option String := none

inductive RedirectOutcome where
  | notFoundPage : RedirectOutcome
  | http302 (location : String) : RedirectOutcome
  | jsRedirectPage (eventId : String) (location : String) : RedirectOutcome
  | jsSnippet (eventId : String) (location : String) : RedirectOutcome
  deriving DecidableEq

/-- The platform click id (rules.ts 3009-3010 / 2752-2753): the query
value under the platform's click-id parameter when that parameter is a
truthy string. -/
def platformClickIdOf (data : RequestData) (plat : PlatformLookup) :
    Option String :=
  match plat.clickIdParam with
  | some p => if p ≠ "" then lookupField data.query p else none
  | none => none

/-- The MacroContext built for the redirect (rules.ts 3013-3024) and for
the embed jsRedirect (2755-2766); both set clickId and impressionId to
the same event id. -/
def redirectMacroContext (rule : RedirectRule) (data : RequestData)
    (plat : PlatformLookup) (eventId sessionId : String) : MacroContext :=
  { campaignId := some rule.id
    campaignName := rule.name
    siteName := rule.siteName
    sessionId := some sessionId
    impressionId := some eventId
    clickId := some eventId
    platformId := orUndef plat.platformId
    platformName := orUndef plat.platformName
    platformClickId := orUndef (platformClickIdOf data plat) }

/-- The storeEvent call queued by both redirect variants (rules.ts
3030-3075 / 2770-2818), restricted to the modeled row fields. -/
def redirectEventInput (rule : RedirectRule) (eventId sessionId : String) :
    StoreEventInput :=
  { eventId := eventId
    sessionId := sessionId
    campaignId := rule.id
    isImpression := true
    isClick := true }

/-- The latency-optimization predicate (rules.ts 3081-3089). -/
def skipJSRedirect (ua : UserAgentData) : Bool :=
  let isDesktop := (ua.device == some "desktop") || !truthyOpt ua.device
  let hasAccurateOSVersion := truthyOpt ua.osVersion &&
    !(ua.osVersion == some "10.15.7") && !(ua.osVersion == some "10.0")
  let isSafariIOS := ((ua.browser == some "Safari") ||
    (ua.browser == some "Mobile Safari") || !truthyOpt ua.browser) &&
    (ua.os == some "iOS")
  if isDesktop then hasAccurateOSVersion
  else hasAccurateOSVersion && !isSafariIOS

/-- The redirect case of applyKVRule (rules.ts 2985-3112): path-mismatch
guard, one impression+click event under one id, then a 302 or a JS
detection redirect carrying the macro-expanded URL.  The second component
collects the rows handed to the store. -/
def redirectServe (data : RequestData) (rule : RedirectRule)
    (payload : String) (vars : List (String × String))
    (plat : PlatformLookup) (freshEvt freshSession : String) :
    RedirectOutcome × List EventsRow :=
  let redirectEventId := jsOrStr data.impressionId freshEvt
  let redirectSessionId := jsOrStr data.sessionId freshSession
  let ctx := redirectMacroContext rule data plat redirectEventId redirectSessionId
  let redirectUrl := replaceMacrosInUrl payload data vars ctx
  let events := (storeEvent (redirectEventInput rule redirectEventId
    redirectSessionId)).toList
  if skipJSRedirect data.userAgent then
    (RedirectOutcome.http302 redirectUrl, events)
  else
    (RedirectOutcome.jsRedirectPage redirectEventId redirectUrl, events)

def redirectDispatch (data : RequestData) (rule : RedirectRule)
    (ruleKey : Str) (payload : String) (vars : List (String × String))
    (plat : PlatformLookup) (freshEvt freshSession : String) :
    RedirectOutcome × List EventsRow :=
  if normalizeRedirectPath (rulePathOfKey ruleKey data.domain) ≠
      normalizeRedirectPath data.path then
    (RedirectOutcome.notFoundPage, [])
  else
    redirectServe data rule payload vars plat freshEvt freshSession

/-- The jsRedirect case of the embed dispatch (rules.ts 2742-2821): same
single impression+click event under one id, no path check, always a JS
snippet response. -/
def jsRedirectDispatch (data : RequestData) (rule : RedirectRule)
    (payload : String) (vars : List (String × String))
    (plat : PlatformLookup) (freshEvt freshSession : String) :
    RedirectOutcome × List EventsRow :=
  let eventId := jsOrStr data.impressionId freshEvt
  let sessionId := jsOrStr data.sessionId freshSession
  let ctx := redirectMacroContext rule data plat eventId sessionId
  let url := replaceMacrosInUrl payload data vars ctx
  let events := (storeEvent (redirectEventInput rule eventId sessionId)).toList
  (RedirectOutcome.jsSnippet eventId url, events)

/-- Fixtures for the C4 and C9 witnesses. -/
def exRedirectData : RequestData :=
  { domain := some "ex.com", path := ['/', 'g', 'o'],
    impressionId := some "imp-1", sessionId := some "s-9" }

def exRedirectRule : RedirectRule := { id := "camp-7" }

def exRedirectRow : EventsRow :=
  { event_id := "imp-1", session_id := some "s-9",
    campaign_id := some "camp-7", is_impression := true, is_click := true,
    is_conversion := false }

/-! ## Session id (rules.ts, getHeaderOrderFingerprint 1667-1675 and
generateSessionId 1682-1726) -/

/-- UTF-16 code units of one character (JS charCodeAt). -/
def utf16Units (c : Char) : List Nat :=
  let n := c.toNat
  if n < 0x10000 then [n]
  else
    let v := n - 0x10000
    [0xD800 + v / 0x400, 0xDC00 + v % 0x400]

def strUnits (s : String) : List Nat := (s.data.map utf16Units).flatten

/-- FNV-1a over the code units, with Math.imul and the JS int32/uint32
round trips collapsing to arithmetic mod 2^32. -/
def fnv1a32 (units : List Nat) : Nat :=
  units.foldl (fun h u => (Nat.xor h u * 16777619) % 4294967296) 2166136261

def toBase36Char (d : Nat) : Char :=
  if d < 10 then Char.ofNat (48 + d) else Char.ofNat (87 + d)

def toBase36Go : Nat → Nat → Str
  | 0, _ => []
  | fuel + 1, n =>
    if n < 36 then [toBase36Char n]
    else toBase36Go fuel (n / 36) ++ [toBase36Char (n % 36)]

/-- Number.prototype.toString(36) for a nonnegative integer. -/
def toBase36 (n : Nat) : Str := toBase36Go (n + 1) n

/-- .toString(36).padStart(8, 0).substring(0, 8) applied to the hash
(rules.ts 1725). -/
def sessionIdOfHash (h : Nat) : String :=
  String.mk ((List.replicate (8 - (toBase36 h).length) '0' ++ toBase36 h).take 8)

def startsWithStr (s pre : String) : Bool := pre.data.isPrefixOf s.data

def joinWith (sep : String) : List String → String
  | [] => ""
  | [s] => s
  | s :: rest => s ++ sep ++ joinWith sep rest

/-- getHeaderOrderFingerprint (rules.ts 1667-1675): the first 15 header
names in order, lowercased, with proxy headers removed after the
15-window is taken, comma-joined. -/
def getHeaderOrderFingerprint (headers : List (String × String)) : String :=
  joinWith ","
    ((((headers.map (·.1)).take 15).map toLowerStr).filter fun h =>
      !startsWithStr h "cf-" && h != "x-forwarded-for" && h != "x-real-ip")

/-- The thirteen fingerprint components of generateSessionId (rules.ts
1684-1714), in source order. -/
def fingerprintComponents (data : RequestData) : List String :=
  [ jsOrStr data.ip ""
  , jsOrStr data.cf.tlsCipher ""
  , jsOrStr data.cf.httpProtocol ""
  , jsOrStr data.userAgent.raw ""
  , getHeaderOrderFingerprint data.headers
  , jsOrStr (lookupField data.headers "accept") ""
  , jsOrStr (lookupField data.headers "accept-language") ""
  , jsOrStr (lookupField data.headers "accept-encoding") ""
  , jsOrStr (lookupField data.headers "sec-ch-ua") ""
  , jsOrStr (lookupField data.headers "sec-ch-ua-platform") ""
  , jsOrStr (lookupField data.headers "sec-ch-ua-mobile") ""
  , jsOrStr (lookupField data.headers "connection") ""
  , jsOrStr (lookupField data.headers "upgrade-insecure-requests") "" ]

def fingerprintOf (data : RequestData) : String :=
  joinWith "|" (fingerprintComponents data)

/-- generateSessionId (rules.ts 1682-1726). -/
def generateSessionId (data : RequestData) : String :=
  sessionIdOfHash (fnv1a32 (strUnits (fingerprintOf data)))

/-- Fixtures for the C6 counterexample: an FNV-1a collision pair and a
request with a full 15-header window. -/
def exFpCollide1 : RequestData := { ip := some "costarring" }

def exFpCollide2 : RequestData := { ip := some "liquid" }

def exHdrData : RequestData :=
  { headers :=
      [("h01", "v"), ("h02", "v"), ("h03", "v"), ("h04", "v"), ("h05", "v"),
       ("h06", "v"), ("h07", "v"), ("h08", "v"), ("h09", "v"), ("h10", "v"),
       ("h11", "v"), ("h12", "v"), ("h13", "v"), ("h14", "v"), ("h15", "v")] }

def exHdrDataCf : RequestData :=
  { headers := ("cf-x", "1") :: exHdrData.headers }

def exSmallHdr : RequestData := { headers := [("h1", "v")] }

/-! ## Proxy HTML link rewriting (rules.ts, rewriteUrl 1244-1247 and the
a/link/iframe/form/embed handler of handleInitialProxyRequest 1286-1301) -/

structure ElementModel where
  tagName : String
  attrs : List (String × String)
  deriving DecidableEq

/-- The attributeMap of the handler (rules.ts 1289-1292). -/
def attributeMap (tag : String) : Option String :=
  lookupField
    [("a", "href"), ("link", "href"), ("iframe", "src"),
     ("form", "action"), ("embed", "src")] tag

/-- Element.setAttribute on the attribute list: replace in place. -/
def setAttr : List (String × String) → String → String → List (String × String)
  | [], k, v => [(k, v)]
  | (k0, v0) :: rest, k, v =>
    if k0 == k then (k, v) :: rest else (k0, v0) :: setAttr rest k v

def schemeOf (base : String) : String :=
  String.mk (base.data.takeWhile (· ≠ ':'))

def originOf (base : String) : String :=
  let sch := base.data.takeWhile (· ≠ ':')
  let afterScheme := (base.data.dropWhile (· ≠ ':')).drop 3
  String.mk (sch ++ ':' :: '/' :: '/' :: afterScheme.takeWhile (· ≠ '/'))

def baseDirOf (base : String) : String :=
  String.mk ((base.data.reverse.dropWhile (· ≠ '/')).reverse)

def hasSchemeAux : Str → Bool
  | [] => false
  | c :: rest =>
    if c = ':' then true
    else (c.isAlphanum || c = '+' || c = '-' || c = '.') && hasSchemeAux rest

def hasScheme (s : String) : Bool :=
  match s.data with
  | [] => false
  | c :: rest => c.isAlpha && hasSchemeAux rest

/-- Modelled from the spec: new URL(url, base).href of the platform URL
constructor (a runtime builtin, not in the source tree), restricted to
the cases the rewriter meets: a scheme-carrying input stays as it is,
a scheme-relative input takes the base scheme, a rooted input joins the
base origin, and anything else replaces the last path segment of the
base. -/
def urlResolve (url base : String) : String :=
  if hasScheme url then url
  else if startsWithStr url "//" then schemeOf base ++ ":" ++ url
  else if startsWithStr url "/" then originOf base ++ url
  else baseDirOf base ++ url

/-- rewriteUrl (rules.ts 1244-1247). -/
def rewriteUrl (url base : String) : String := urlResolve url base

/-- The a/link/iframe/form/embed element handler (rules.ts 1287-1301):
look up the tag's URL attribute; rewrite its value against the base
unless the value is falsy or starts with mailto:, tel:, or a fragment
marker. -/
def rewriteLinkElement (base : String) (el : ElementModel) : ElementModel :=
  match attributeMap el.tagName with
  | none => el
  | some attr =>
    match lookupField el.attrs attr with
    | none => el
    | some v =>
      if v != "" && !startsWithStr v "mailto:" && !startsWithStr v "tel:" &&
          !startsWithStr v "#" then
        { el with attrs := setAttr el.attrs attr (rewriteUrl v base) }
      else el

/-- Fixtures for C10. -/
def exEmptyHref : ElementModel := { tagName := "a", attrs := [("href", "")] }

def exMailtoEl : ElementModel :=
  { tagName := "a", attrs := [("href", "mailto:z@u.example")] }

def exPathEl : ElementModel := { tagName := "form", attrs := [("action", "/x")] }

-- ===================== THEOREMS =====================

theorem firstHit_append {α : Type} (kv : Str → Option α) (xs ys : List Str) :
    firstHit kv (xs ++ ys) = orElseO (firstHit kv xs) (firstHit kv ys) := by
  induction xs with
  | nil => simp [firstHit, orElseO]
  | cons k ks ih =>
    simp only [List.cons_append, firstHit]
    cases kv k <;> simp [ih, orElseO]

theorem firstHit_cons {α : Type} (kv : Str → Option α) (k : Str) (ks : List Str) :
    firstHit kv (k :: ks) = orElseO (tryKey kv k) (firstHit kv ks) := by
  simp only [firstHit, tryKey]
  cases kv k <;> simp [orElseO]

theorem firstHit_ite_singleton {α : Type} (kv : Str → Option α) (c : Prop)
    [Decidable c] (k : Str) :
    firstHit kv (if c then [k] else []) = if c then tryKey kv k else none := by
  split_ifs with h
  · simp only [firstHit, tryKey]
    cases kv k <;> simp
  · rfl

theorem firstHit_mem {α : Type} (kv : Str → Option α) :
    ∀ l r key, firstHit kv l = some (r, key) → key ∈ l := by
  intro l
  induction l with
  | nil => intro r key h; simp [firstHit] at h
  | cons k ks ih =>
    intro r key h
    simp only [firstHit] at h
    cases hk : kv k with
    | some v =>
      rw [hk] at h
      simp only [Option.some.injEq, Prod.mk.injEq] at h
      simp [h.2]
    | none =>
      rw [hk] at h
      exact List.mem_cons_of_mem _ (ih r key h)

theorem lastSlashPos_lt_length : ∀ (s : Str) i, lastSlashPos s = some i → i < s.length := by
  intro s
  induction s with
  | nil => intro i h; simp [lastSlashPos] at h
  | cons c t ih =>
    intro i h
    simp only [lastSlashPos] at h
    cases ht : lastSlashPos t with
    | some j =>
      rw [ht] at h
      simp only [Option.some.injEq] at h
      have := ih j ht
      simp only [List.length_cons]
      omega
    | none =>
      rw [ht] at h
      by_cases hc : c = '/'
      · simp [hc] at h
        simp only [List.length_cons]
        omega
      · simp [hc] at h

theorem parentPath_ne_nil (cur : Str) : parentPath cur ≠ [] := by
  unfold parentPath
  cases h : lastSlashPos cur with
  | none => simp
  | some i =>
    by_cases hi : 0 < i
    · have hlt := lastSlashPos_lt_length cur i h
      simp only [hi, if_pos]
      intro hnil
      have := congrArg List.length hnil
      simp only [List.length_take, List.length_nil] at this
      omega
    · simp [hi]

theorem firstHit_singleton {α : Type} (kv : Str → Option α) (k : Str) :
    firstHit kv [k] = tryKey kv k := by
  simp only [firstHit, tryKey]
  cases kv k <;> simp

theorem getKVRuleGo_eq {α : Type} (kv : Str → Option α) (domain : Str) :
    ∀ fuel cur,
      getKVRuleGo kv domain fuel cur =
        firstHit kv ((ruleLookupKeysGo fuel cur).map (domain ++ ·)) := by
  intro fuel
  induction fuel with
  | zero => intro cur; rfl
  | succ f ih =>
    intro cur
    have hA : (if endsWithSlash cur = true ∧ 1 < cur.length then
          tryKey kv (domain ++ cur).dropLast else none) =
        firstHit kv ((if endsWithSlash cur = true ∧ 1 < cur.length then
          [cur.dropLast] else []).map (domain ++ ·)) := by
      split_ifs with h1
      · have hcur : cur ≠ [] := by
          intro hc; rw [hc] at h1; simp at h1
        rw [List.map_cons, List.map_nil, firstHit_singleton,
          List.dropLast_append_of_ne_nil domain hcur]
      · rfl
    have hB : (if (¬ endsWithSlash cur = true) ∧ cur ≠ ['/'] then
          tryKey kv (domain ++ cur ++ ['/']) else none) =
        firstHit kv ((if (¬ endsWithSlash cur = true) ∧ cur ≠ ['/'] then
          [cur ++ ['/']] else []).map (domain ++ ·)) := by
      split_ifs with h2
      · rw [List.map_cons, List.map_nil, firstHit_singleton, List.append_assoc]
      · rfl
    have hC : (if cur = ['/'] then none
          else getKVRuleGo kv domain f (parentPath cur)) =
        firstHit kv ((if cur = ['/'] then []
          else ruleLookupKeysGo f (parentPath cur)).map (domain ++ ·)) := by
      split_ifs with h3
      · rfl
      · exact ih (parentPath cur)
    rw [getKVRuleGo, ruleLookupKeysGo, hA, hB, hC]
    simp only [List.append_assoc, List.map_cons, List.map_append, List.map_nil]
    rw [firstHit_append, firstHit_append, firstHit_append, firstHit_singleton]

theorem ruleLookupKeysGo_ne_nil :
    ∀ fuel cur, cur ≠ [] → ∀ s ∈ ruleLookupKeysGo fuel cur, s ≠ [] := by
  intro fuel
  induction fuel with
  | zero => intro cur _ s hs; simp [ruleLookupKeysGo] at hs
  | succ f ih =>
    intro cur hcur s hs
    rw [ruleLookupKeysGo] at hs
    simp only [List.mem_append, List.mem_cons, List.not_mem_nil, or_false] at hs
    rcases hs with ((hs | hs) | hs) | hs
    · subst hs; exact hcur
    · split_ifs at hs with h1
      · simp only [List.mem_singleton] at hs
        subst hs
        intro hnil
        have := congrArg List.length hnil
        simp only [List.length_dropLast, List.length_nil] at this
        omega
      · simp at hs
    · split_ifs at hs with h2
      · simp only [List.mem_singleton] at hs
        subst hs; simp
      · simp at hs
    · split_ifs at hs with h3
      · simp at hs
      · exact ih (parentPath cur) (parentPath_ne_nil cur) s hs

/-- C1: for every KV store, domain and non-empty request path, rule
resolution returns the bundle stored at the first present key of the
candidate list described by the spec (exact key, then the trailing-slash
variant, then with the last path segment stripped, down to the root, the
bare host key only for the root path); consequently a non-root request
path never matches a bare host rule. -/
theorem c1_rule_resolution {α : Type} (kv : Str → Option α) (domain path : Str)
    (hpath : path ≠ []) :
    getKVRule kv domain path = firstHit kv (ruleLookupKeys domain path) ∧
    (path ≠ ['/'] →
      ∀ r key, getKVRule kv domain path = some (r, key) → key ≠ domain) := by
  have hmain : getKVRule kv domain path = firstHit kv (ruleLookupKeys domain path) := by
    unfold getKVRule ruleLookupKeys
    rw [getKVRuleGo_eq, firstHit_append]
    congr 1
    rw [firstHit_ite_singleton]
  refine ⟨hmain, ?_⟩
  intro hroot r key hsome
  rw [hmain] at hsome
  have hkeymem := firstHit_mem kv _ r key hsome
  unfold ruleLookupKeys at hkeymem
  simp only [hroot, if_neg, if_false, List.append_nil, List.mem_map] at hkeymem
  obtain ⟨s, hs, hkey⟩ := hkeymem
  have hsne : s ≠ [] := ruleLookupKeysGo_ne_nil _ path hpath s hs
  intro hcontra
  rw [← hkey] at hcontra
  have := congrArg List.length hcontra
  simp only [List.length_append] at this
  have : s.length = 0 := by omega
  exact hsne (List.length_eq_zero.mp this)

theorem totalWeight_eq_sum (ws : List (Option ℚ)) (dflt : ℚ) :
    totalWeight ws dflt = (ws.map (effWeight · dflt)).sum := by
  have h : ∀ (l : List (Option ℚ)) (c : ℚ),
      l.foldl (fun sum w => sum + effWeight w dflt) c = c + (l.map (effWeight · dflt)).sum := by
    intro l
    induction l with
    | nil => intro c; simp
    | cons w t ih =>
      intro c
      simp only [List.foldl_cons, List.map_cons, List.sum_cons, ih]
      ring
  simpa using h ws 0

theorem cumWeight_cons (w : Option ℚ) (ws : List (Option ℚ)) (dflt : ℚ) (m : Nat) :
    cumWeight (w :: ws) dflt (m + 1) = effWeight w dflt + cumWeight ws dflt m := by
  simp [cumWeight, List.take_succ_cons]

theorem cumWeight_nonneg (ws : List (Option ℚ)) (dflt : ℚ) (i : Nat)
    (hpos : ∀ w ∈ ws, 0 < effWeight w dflt) : 0 ≤ cumWeight ws dflt i := by
  apply List.sum_nonneg
  intro q hq
  simp only [List.mem_map] at hq
  obtain ⟨w, hw, rfl⟩ := hq
  exact le_of_lt (hpos w (List.mem_of_mem_take hw))

theorem cumWeight_succ (ws : List (Option ℚ)) (dflt : ℚ) (i : Nat) (hi : i < ws.length) :
    cumWeight ws dflt (i + 1) = cumWeight ws dflt i + effWeight (ws.getD i none) dflt := by
  unfold cumWeight
  rw [List.take_succ, List.map_append, List.sum_append]
  congr 1
  rw [List.getElem?_eq_getElem hi]
  simp [List.getD, List.getElem?_eq_getElem hi]

theorem totalWeight_eq_cum_len (ws : List (Option ℚ)) (dflt : ℚ) :
    totalWeight ws dflt = cumWeight ws dflt ws.length := by
  rw [totalWeight_eq_sum]
  simp [cumWeight]

theorem totalWeight_pos (ws : List (Option ℚ)) (dflt : ℚ) (hne : ws ≠ [])
    (hpos : ∀ w ∈ ws, 0 < effWeight w dflt) : 0 < totalWeight ws dflt := by
  rw [totalWeight_eq_sum]
  apply List.sum_pos
  · intro q hq
    simp only [List.mem_map] at hq
    obtain ⟨w, hw, rfl⟩ := hq
    exact hpos w hw
  · simp [hne]

theorem selectWeightedGo_spec (dflt x : ℚ) :
    ∀ (ws : List (Option ℚ)) (c : ℚ) (i0 k : Nat),
      (∀ w ∈ ws, 0 < effWeight w dflt) →
      (selectWeightedGo dflt x ws c i0 = some k ↔
        ∃ j, k = i0 + j ∧ j < ws.length ∧
          x ≤ c + cumWeight ws dflt (j + 1) ∧
          (j = 0 ∨ c + cumWeight ws dflt j < x)) := by
  intro ws
  induction ws with
  | nil =>
    intro c i0 k _
    simp [selectWeightedGo]
  | cons w ws ih =>
    intro c i0 k hpos
    have hw : 0 < effWeight w dflt := hpos w (List.mem_cons_self w ws)
    have hpos' : ∀ v ∈ ws, 0 < effWeight v dflt := fun v hv =>
      hpos v (List.mem_cons_of_mem w hv)
    rw [selectWeightedGo]
    by_cases hx : x ≤ c + effWeight w dflt
    · simp only [hx, if_pos]
      constructor
      · intro h
        have hk : k = i0 := by
          simpa using h.symm
        refine ⟨0, by omega, by simp, ?_, Or.inl rfl⟩
        simpa [cumWeight_cons, cumWeight] using hx
      · rintro ⟨j, hk, hj, hub, hlb⟩
        have hj0 : j = 0 := by
          by_contra hjne
          rcases Nat.exists_eq_succ_of_ne_zero hjne with ⟨j2, rfl⟩
          have hlt : c + cumWeight (w :: ws) dflt (j2 + 1) < x := by
            rcases hlb with h0 | h
            · exact absurd h0 (Nat.succ_ne_zero j2)
            · exact h
          rw [cumWeight_cons] at hlt
          have hge : (0 : ℚ) ≤ cumWeight ws dflt j2 := cumWeight_nonneg ws dflt j2 hpos'
          have hcl : c + effWeight w dflt < x := by linarith
          exact absurd hx (not_le_of_lt hcl)
        subst hj0; simp [hk]
    · simp only [hx, if_neg, if_false]
      rw [ih (c + effWeight w dflt) (i0 + 1) k hpos']
      constructor
      · rintro ⟨j, hk, hj, hub, hlb⟩
        refine ⟨j + 1, by omega, by simpa using Nat.succ_lt_succ hj, ?_, Or.inr ?_⟩
        · rw [cumWeight_cons]
          linarith
        · rw [cumWeight_cons]
          rcases hlb with hj0 | hlt
          · subst hj0
            simp only [cumWeight, List.take_zero, List.map_nil, List.sum_nil, add_zero]
            linarith [lt_of_not_le hx]
          · linarith
      · rintro ⟨j, hk, hj, hub, hlb⟩
        have hjne : j ≠ 0 := by
          intro hj0
          rw [hj0] at hub
          have hcum1 : cumWeight (w :: ws) dflt 1 = effWeight w dflt := by
            simp [cumWeight]
          rw [hcum1] at hub
          exact hx hub
        rcases Nat.exists_eq_succ_of_ne_zero hjne with ⟨j2, rfl⟩
        refine ⟨j2, by omega, by simpa using hj, ?_, Or.inr ?_⟩
        · rw [cumWeight_cons] at hub
          linarith
        · rcases hlb with hj0 | hlt
          · exact absurd hj0 (Nat.succ_ne_zero j2)
          · rw [cumWeight_cons] at hlt
            linarith

theorem selectWeightedIndex_spec (ws : List (Option ℚ)) (dflt x : ℚ) (i : Nat)
    (hpos : ∀ w ∈ ws, 0 < effWeight w dflt) :
    selectWeightedIndex ws dflt x = some i ↔
      i < ws.length ∧ x ≤ cumWeight ws dflt (i + 1) ∧
        (i = 0 ∨ cumWeight ws dflt i < x) := by
  rw [selectWeightedIndex, selectWeightedGo_spec dflt x ws 0 0 i hpos]
  constructor
  · rintro ⟨j, hk, hj, hub, hlb⟩
    have : j = i := by omega
    subst this
    exact ⟨hj, by simpa using hub, by simpa using hlb⟩
  · rintro ⟨hi, hub, hlb⟩
    exact ⟨i, by omega, hi, by simpa using hub, by simpa using hlb⟩

theorem selectWeightedGo_total (dflt x : ℚ) :
    ∀ (ws : List (Option ℚ)) (c : ℚ) (i0 : Nat), ws ≠ [] →
      x ≤ c + cumWeight ws dflt ws.length →
      (selectWeightedGo dflt x ws c i0).isSome := by
  intro ws
  induction ws with
  | nil => intro c i0 hne _; exact absurd rfl hne
  | cons w ws ih =>
    intro c i0 _ hle
    rw [selectWeightedGo]
    by_cases hx : x ≤ c + effWeight w dflt
    · simp [hx]
    · simp only [hx, if_neg, if_false]
      rcases eq_or_ne ws [] with hws | hws
      · exfalso
        subst hws
        have hcum1 : cumWeight (w :: ([] : List (Option ℚ))) dflt 1 = effWeight w dflt := by
          simp [cumWeight]
        rw [List.length_cons, List.length_nil] at hle
        rw [hcum1] at hle
        exact hx hle
      · apply ih (c + effWeight w dflt) (i0 + 1) hws
        rw [List.length_cons, cumWeight_cons] at hle
        linarith

/-- C3 (amended): with every stored weight positive (the JS or-else default
makes an absent or zero weight count as the default: 100 for rules, 1 for
destinations), the selector driven by a uniform draw r in the unit
interval picks index i exactly when r * total lies in the half-open
cumulative-weight window of entry i, a window of measure w_i over the
weight total; the same characterization holds for the in-rule destination
selector with default 1, and a pick always exists. -/
theorem c3_weighted_selection (ws : List (Option ℚ)) (r : ℚ) (i : Nat)
    (hpos : ∀ w ∈ ws, 0 < effWeight w 100)
    (hpos1 : ∀ w ∈ ws, 0 < effWeight w 1)
    (hr0 : 0 ≤ r) (hr1 : r < 1) (hne : ws ≠ []) :
    (selectRuleIndex ws (r * totalWeight ws 100) = some i ↔
      i < ws.length ∧ r * totalWeight ws 100 ≤ cumWeight ws 100 (i + 1) ∧
        (i = 0 ∨ cumWeight ws 100 i < r * totalWeight ws 100)) ∧
    (selectWeightedIndex ws 1 (r * totalWeight ws 1) = some i ↔
      i < ws.length ∧ r * totalWeight ws 1 ≤ cumWeight ws 1 (i + 1) ∧
        (i = 0 ∨ cumWeight ws 1 i < r * totalWeight ws 1)) ∧
    (selectRuleIndex ws (r * totalWeight ws 100)).isSome ∧
    (selectWeightedIndex ws 1 (r * totalWeight ws 1)).isSome ∧
    (selectDestIndex ws (r * totalWeight ws 1) = i ↔
      selectWeightedIndex ws 1 (r * totalWeight ws 1) = some i) ∧
    (i < ws.length →
      cumWeight ws 100 (i + 1) / totalWeight ws 100 -
          cumWeight ws 100 i / totalWeight ws 100 =
        effWeight (ws.getD i none) 100 / totalWeight ws 100 ∧
      cumWeight ws 1 (i + 1) / totalWeight ws 1 -
          cumWeight ws 1 i / totalWeight ws 1 =
        effWeight (ws.getD i none) 1 / totalWeight ws 1) := by
  have hbound : ∀ dflt, (∀ w ∈ ws, 0 < effWeight w dflt) →
      r * totalWeight ws dflt ≤ 0 + cumWeight ws dflt ws.length := by
    intro dflt hp
    have hT : 0 < totalWeight ws dflt := totalWeight_pos ws dflt hne hp
    have : r * totalWeight ws dflt ≤ totalWeight ws dflt := by
      nlinarith
    rw [← totalWeight_eq_cum_len]
    linarith
  refine ⟨selectWeightedIndex_spec ws 100 _ i hpos,
    selectWeightedIndex_spec ws 1 _ i hpos1,
    selectWeightedGo_total 100 _ ws 0 0 hne (hbound 100 hpos),
    selectWeightedGo_total 1 _ ws 0 0 hne (hbound 1 hpos1), ?_, ?_⟩
  · have hs := selectWeightedGo_total 1 (r * totalWeight ws 1) ws 0 0 hne (hbound 1 hpos1)
    cases hsel : selectWeightedGo 1 (r * totalWeight ws 1) ws 0 0 with
    | none => rw [hsel] at hs; simp at hs
    | some j =>
      simp only [selectDestIndex, selectWeightedIndex, hsel, Option.getD_some,
        Option.some.injEq]
  · intro hi
    constructor
    · rw [div_sub_div_same, cumWeight_succ ws 100 i hi]
      ring_nf
    · rw [div_sub_div_same, cumWeight_succ ws 1 i hi]
      ring_nf

/-- C3 counterexample to the claim as stated: a stored weight of 0 is not
kept as 0 but replaced by the default 100 (the JS or-else), so with rules
weighted (0, 100) the code computes total 200 and picks the first rule on
a positive-measure set of draws, while the claim with w_0 = 0 would give
it the empty sub-interval. -/
theorem c3_weighted_selection_counterexample :
    selectRuleIndex [some 0, some 100] ((1 / 4) * totalWeight [some 0, some 100] 100) =
        some 0 ∧
      totalWeight [some 0, some 100] 100 = 200 ∧
      effWeight (some 0) 100 = 100 := by
  refine ⟨?_, by norm_num [totalWeight, effWeight], by norm_num [effWeight]⟩
  norm_num [selectRuleIndex, selectWeightedIndex, selectWeightedGo, totalWeight, effWeight]

/-- C3 witness: the amended theorem applied at rules weighted (30, 70)
with the uniform draw one half, which picks the second rule. -/
theorem c3_weighted_selection_witness :
    selectRuleIndex [some 30, some 70] ((1 / 2) * totalWeight [some 30, some 70] 100) =
      some 1 := by
  have hmem : ∀ w ∈ [some (30 : ℚ), some 70], ∀ d : ℚ, 0 < d → 0 < effWeight w d := by
    intro w hw d hd
    simp only [List.mem_cons, List.not_mem_nil, or_false] at hw
    rcases hw with rfl | rfl <;> norm_num [effWeight]
  have h := c3_weighted_selection [some 30, some 70] (1 / 2) 1
    (fun w hw => hmem w hw 100 (by norm_num))
    (fun w hw => hmem w hw 1 (by norm_num))
    (by norm_num) (by norm_num) (by simp)
  rw [h.1]
  refine ⟨by simp, ?_, Or.inr ?_⟩
  · show (1 / 2 : ℚ) * totalWeight [some 30, some 70] 100 ≤ cumWeight [some 30, some 70] 100 2
    norm_num [totalWeight, effWeight, cumWeight]
  · show cumWeight [some 30, some 70] 100 1 < (1 / 2 : ℚ) * totalWeight [some 30, some 70] 100
    norm_num [totalWeight, effWeight, cumWeight]

theorem all_flagContrib {α : Type} (o : Option α) (truthy check : α → Bool) :
    (flagContrib o truthy check).all (fun b => b) = fieldHolds o truthy check := by
  cases o with
  | none => rfl
  | some v =>
    by_cases h : truthy v = true
    · simp [flagContrib, fieldHolds, h]
    · simp only [Bool.not_eq_true] at h
      simp [flagContrib, fieldHolds, h]

theorem getPathExtension_of_suffix (q ext0 : Str)
    (hq : '?' ∉ q ++ '.' :: ext0) (hh : '#' ∉ q ++ '.' :: ext0)
    (hslash : '/' ∉ ext0) (hdot : '.' ∉ ext0) :
    getPathExtension (q ++ '.' :: ext0) = String.mk (ext0.map Char.toLower) := by
  have h1 : (q ++ '.' :: ext0).takeWhile (· ≠ '?') = q ++ '.' :: ext0 :=
    List.takeWhile_eq_self_iff.mpr (by
      intro c hc
      simp only [decide_eq_true_eq]
      intro hce
      exact hq (hce ▸ hc))
  have h2 : (q ++ '.' :: ext0).takeWhile (· ≠ '#') = q ++ '.' :: ext0 :=
    List.takeWhile_eq_self_iff.mpr (by
      intro c hc
      simp only [decide_eq_true_eq]
      intro hce
      exact hh (hce ▸ hc))
  have hclean : pathClean (q ++ '.' :: ext0) = q ++ '.' :: ext0 := by
    rw [pathClean, h1, h2]
  have hrev : (q ++ '.' :: ext0).reverse = ext0.reverse ++ '.' :: q.reverse := by
    simp
  have hR : (ext0.reverse ++ '.' :: q.reverse).takeWhile (· ≠ '/') =
      ext0.reverse ++ '.' :: (q.reverse.takeWhile (· ≠ '/')) := by
    rw [List.takeWhile_append_of_pos]
    · rw [List.takeWhile_cons_of_pos (by simp)]
    · intro c hc
      simp only [decide_eq_true_eq]
      intro hce
      exact hslash (hce ▸ (List.mem_reverse.mp hc))
  have hseg : pathLastSegment (q ++ '.' :: ext0) =
      (ext0.reverse ++ '.' :: (q.reverse.takeWhile (· ≠ '/'))).reverse := by
    rw [pathLastSegment, hclean, hrev, hR]
  have hcontains : (pathLastSegment (q ++ '.' :: ext0)).contains '.' = true := by
    rw [hseg]
    have hmm : ('.' : Char) ∈ (ext0.reverse ++ '.' :: (q.reverse.takeWhile (· ≠ '/'))).reverse := by
      rw [List.mem_reverse]
      simp
    simpa [List.contains, List.elem_eq_mem] using hmm
  have hTW : (ext0.reverse ++ '.' :: (q.reverse.takeWhile (· ≠ '/'))).takeWhile (· ≠ '.') =
      ext0.reverse := by
    rw [List.takeWhile_append_of_pos]
    · rw [List.takeWhile_cons_of_neg (by simp), List.append_nil]
    · intro c hc
      simp only [decide_eq_true_eq]
      intro hce
      exact hdot (hce ▸ (List.mem_reverse.mp hc))
  rw [getPathExtension, if_pos hcontains, hseg, List.reverse_reverse, hTW,
    List.reverse_reverse]

/-- C2: the matcher verdict coincides with the spec reading (fields AND
across one another, a list value is an OR within the field, an absent or
JS-falsy field is a do-not-care); a FlagSet with a params predicate is
false on every asset request regardless of the query; and a request path
(free of query and fragment characters, as URL pathnames are) is an asset
request exactly when its computed extension lies in the known-asset set. -/
theorem c2_matcher :
    (∀ (data : RequestData) (flags : RuleFlags) (isAsset : Bool),
      checkSingleRule data flags isAsset = specFlagSetMatches data flags isAsset) ∧
    (∀ (data : RequestData) (flags : RuleFlags),
      flags.params.isSome → checkSingleRule data flags true = false) ∧
    (∀ p : Str, '?' ∉ p → '#' ∉ p →
      (isAssetRequestOf p = true ↔ getPathExtension p ∈ ASSET_EXTENSIONS)) := by
  refine ⟨?_, ?_, ?_⟩
  · intro data flags isAsset
    unfold checkSingleRule specFlagSetMatches
    simp only [List.all_append, all_flagContrib]
  · intro data flags hp
    obtain ⟨ps, hps⟩ := Option.isSome_iff_exists.mp hp
    unfold checkSingleRule
    simp [hps, flagContrib, checkParamsFlag]
  · intro p hq hh
    have hhtml : endsWithStr ".html" p = true → getPathExtension p = "html" := by
      intro hs
      unfold endsWithStr at hs
      have hsuf : (".html").data <:+ p := by
        rw [← List.isSuffixOf_iff_suffix]
        exact hs
      obtain ⟨q, hqp⟩ := hsuf
      have hqp2 : p = q ++ '.' :: ("html").data := by rw [← hqp]
      rw [hqp2]
      exact (getPathExtension_of_suffix q ("html").data (hqp2 ▸ hq) (hqp2 ▸ hh)
        (by decide) (by decide)).trans (by decide)
    have hhtm : endsWithStr ".htm" p = true → getPathExtension p = "htm" := by
      intro hs
      unfold endsWithStr at hs
      have hsuf : (".htm").data <:+ p := by
        rw [← List.isSuffixOf_iff_suffix]
        exact hs
      obtain ⟨q, hqp⟩ := hsuf
      have hqp2 : p = q ++ '.' :: ("htm").data := by rw [← hqp]
      rw [hqp2]
      exact (getPathExtension_of_suffix q ("htm").data (hqp2 ▸ hq) (hqp2 ▸ hh)
        (by decide) (by decide)).trans (by decide)
    constructor
    · intro ha
      unfold isAssetRequestOf isPageLike at ha
      simp only [Bool.not_eq_true', Bool.or_eq_false_iff, decide_eq_false_iff_not,
        Bool.and_eq_false_iff, Bool.not_eq_false'] at ha
      obtain ⟨⟨⟨⟨h1, h2⟩, h3⟩, h4⟩, h5⟩ := ha
      rcases h5 with h5 | h5
      · exact absurd (by simpa using h4) (by simp [h5])
      · simpa [List.contains, List.elem_eq_mem] using h5
    · intro hmem
      have hne : getPathExtension p ≠ "" := by
        intro he
        rw [he] at hmem
        exact absurd hmem (by decide)
      unfold isAssetRequestOf isPageLike
      simp only [Bool.not_eq_true', Bool.or_eq_false_iff, decide_eq_false_iff_not,
        Bool.and_eq_false_iff, Bool.not_eq_false']
      refine ⟨⟨⟨⟨?_, ?_⟩, ?_⟩, hne⟩, Or.inr ?_⟩
      · intro hp
        rw [hp] at hne
        exact hne rfl
      · cases hends : endsWithStr ".html" p with
        | false => rfl
        | true =>
          rw [hhtml hends] at hmem
          exact absurd hmem (by decide)
      · cases hends : endsWithStr ".htm" p with
        | false => rfl
        | true =>
          rw [hhtm hends] at hmem
          exact absurd hmem (by decide)
      · simpa [List.contains, List.elem_eq_mem] using hmem

/-- C2 witness: the matcher equivalence, the params-on-asset falsity and
the extension test applied to a concrete context (country US with list
flags and a params predicate) and to the concrete asset path /app.css. -/
theorem c2_matcher_witness :
    checkSingleRule exMatchData exMatchFlags false =
        specFlagSetMatches exMatchData exMatchFlags false ∧
      checkSingleRule exMatchData exMatchFlags true = false ∧
      (isAssetRequestOf ("/app.css").data = true ↔
        getPathExtension ("/app.css").data ∈ ASSET_EXTENSIONS) ∧
      checkSingleRule exMatchData exMatchFlags false = true ∧
      isAssetRequestOf ("/app.css").data = true := by
  refine ⟨c2_matcher.1 exMatchData exMatchFlags false,
    c2_matcher.2.1 exMatchData exMatchFlags (by decide),
    c2_matcher.2.2 ("/app.css").data (by decide) (by decide),
    by decide, by decide⟩

theorem qlookup_append (a b : Query) (k : String) :
    qlookup (a ++ b) k = (qlookup a k).or (qlookup b k) := by
  unfold qlookup
  rw [List.find?_append]
  cases a.find? fun p => p.1 == k <;> simp

theorem qlookup_eq_none (q : Query) (k : String) :
    qlookup q k = none ↔ ∀ kv ∈ q, kv.1 ≠ k := by
  unfold qlookup
  simp [List.find?_eq_none]

theorem find?_congr_mem {α : Type} (l : List α) (p q : α → Bool)
    (h : ∀ a ∈ l, p a = q a) : l.find? p = l.find? q := by
  induction l with
  | nil => rfl
  | cons a t ih =>
    have ha := h a (List.mem_cons_self a t)
    rw [List.find?_cons, List.find?_cons, ha]
    cases q a
    · exact ih fun x hx => h x (List.mem_cons_of_mem a hx)
    · rfl

theorem qlookup_map_entry (l : Query) (g : String × String → String) (k : String) :
    qlookup (l.map fun kv => (kv.1, g kv)) k = (l.find? fun p => p.1 == k).map g := by
  unfold qlookup
  rw [List.find?_map]
  rw [show ((fun p : String × String => p.1 == k) ∘
      fun kv : String × String => (kv.1, g kv)) =
      (fun p : String × String => p.1 == k) from rfl]
  cases l.find? fun p : String × String => p.1 == k <;> rfl

theorem qlookup_mergeQuery (impQ curQ : Query) (k : String) :
    qlookup (mergeQuery impQ curQ) k =
      match qlookup impQ k with
      | some vi => some ((qlookup curQ k).getD vi)
      | none => qlookup curQ k := by
  unfold mergeQuery
  rw [qlookup_append]
  rw [qlookup_map_entry impQ (fun kv => (qlookup curQ kv.1).getD kv.2) k]
  cases hfind : impQ.find? (fun p => p.1 == k) with
  | some kv =>
    have hqi : qlookup impQ k = some kv.2 := by
      unfold qlookup
      rw [hfind]
      rfl
    have hk2 : kv.1 = k := by
      have := List.find?_some hfind
      simpa using this
    rw [hqi]
    simp [hk2]
  | none =>
    have hqi : qlookup impQ k = none := by
      unfold qlookup
      rw [hfind]
      rfl
    rw [hqi]
    simp only [Option.map_none, Option.none_or]
    show qlookup (curQ.filter fun kv => (qlookup impQ kv.1).isNone) k = qlookup curQ k
    unfold qlookup
    rw [List.find?_filter]
    congr 1
    apply find?_congr_mem
    intro a _
    by_cases hak : a.1 = k
    · rw [hak]
      simp [hfind]
    · have hf : (a.1 == k) = false := by
        simpa using hak
      simp [hf]

theorem qlookup_mergeQuery_cur (impQ curQ : Query) (k v : String)
    (hv : qlookup curQ k = some v) :
    qlookup (mergeQuery impQ curQ) k = some v := by
  rw [qlookup_mergeQuery]
  cases qlookup impQ k <;> simp [hv]

theorem qlookup_mergeQuery_imp (impQ curQ : Query) (k : String)
    (hv : qlookup curQ k = none) :
    qlookup (mergeQuery impQ curQ) k = qlookup impQ k := by
  rw [qlookup_mergeQuery]
  cases h : qlookup impQ k <;> simp [hv]

theorem qlookup_setParamGo_same (k v : String) :
    ∀ ps : Query, ps.any (fun kv => kv.1 == k) → qlookup (setParamGo k v ps) k = some v := by
  intro ps
  induction ps with
  | nil => intro h; simp at h
  | cons a t ih =>
    intro h
    obtain ⟨k2, v2⟩ := a
    unfold setParamGo
    by_cases hk2 : (k2 == k) = true
    · rw [if_pos hk2]
      unfold qlookup
      rw [List.find?_cons_of_pos _ (by simp)]
      rfl
    · rw [if_neg hk2]
      unfold qlookup
      rw [List.find?_cons_of_neg _ (by simpa using hk2)]
      apply ih
      simp only [List.any_cons, hk2] at h
      simpa using h

theorem qlookup_setParam_same (ps : Query) (k v : String) :
    qlookup (setParam ps k v) k = some v := by
  unfold setParam
  by_cases h : ps.any (fun kv => kv.1 == k) = true
  · rw [if_pos h]
    exact qlookup_setParamGo_same k v ps h
  · rw [if_neg h]
    rw [qlookup_append]
    have hnone : qlookup ps k = none := by
      rw [qlookup_eq_none]
      intro kv hkv hk
      apply h
      rw [List.any_eq_true]
      exact ⟨kv, hkv, by simp [hk]⟩
    rw [hnone]
    unfold qlookup
    rw [List.find?_cons_of_pos _ (by simp)]
    rfl

theorem qlookup_setParamGo_other (k v k2 : String) (hne : k2 ≠ k) :
    ∀ ps : Query, qlookup (setParamGo k v ps) k2 = qlookup ps k2 := by
  intro ps
  induction ps with
  | nil => rfl
  | cons a t ih =>
    obtain ⟨ka, va⟩ := a
    unfold setParamGo
    by_cases hka : (ka == k) = true
    · rw [if_pos hka]
      have hka2 : ka = k := by simpa using hka
      unfold qlookup
      rw [List.find?_cons_of_neg _ (by simpa using Ne.symm hne)]
      rw [List.find?_filter]
      rw [List.find?_cons_of_neg _ (by
        rw [hka2]
        simpa using Ne.symm hne)]
      congr 1
      apply find?_congr_mem
      intro a _
      by_cases hak2 : a.1 = k2
      · rw [hak2]
        simp [hne]
      · have hf : (a.1 == k2) = false := by simpa using hak2
        simp [hf]
    · rw [if_neg hka]
      unfold qlookup at ih ⊢
      simp only [List.find?_cons]
      cases hk2a : (ka == k2) with
      | false => simpa [hk2a] using ih
      | true => simp [hk2a]

theorem qlookup_setParam_other (ps : Query) (k v k2 : String) (hne : k2 ≠ k) :
    qlookup (setParam ps k v) k2 = qlookup ps k2 := by
  unfold setParam
  split_ifs with h
  · exact qlookup_setParamGo_other k v k2 hne ps
  · rw [qlookup_append]
    have h2 : qlookup [(k, v)] k2 = none := by
      unfold qlookup
      rw [List.find?_cons_of_neg _ (by simpa using Ne.symm hne)]
      rfl
    rw [h2]
    cases qlookup ps k2 <;> rfl

theorem qlookup_foldl_setParam_other (l : List (String × String)) :
    ∀ (acc : Query) (k : String), (∀ kv ∈ l, kv.1 ≠ k) →
      qlookup (l.foldl (fun acc kv => setParam acc kv.1 kv.2) acc) k = qlookup acc k := by
  induction l with
  | nil => intro acc k _; rfl
  | cons a t ih =>
    intro acc k h
    rw [List.foldl_cons]
    rw [ih _ k fun kv hkv => h kv (List.mem_cons_of_mem a hkv)]
    exact qlookup_setParam_other acc a.1 a.2 k (h a (List.mem_cons_self a t)).symm

theorem qlookup_foldl_setParam_mem (l : List (String × String)) :
    ∀ (acc : Query) (k v : String), (l.map Prod.fst).Nodup → (k, v) ∈ l →
      qlookup (l.foldl (fun acc kv => setParam acc kv.1 kv.2) acc) k = some v := by
  induction l with
  | nil => intro acc k v _ hm; simp at hm
  | cons a t ih =>
    intro acc k v hnd hm
    rw [List.foldl_cons]
    rcases List.mem_cons.mp hm with heq | hm2
    · have hk : ∀ kv ∈ t, kv.1 ≠ k := by
        intro kv hkv hkk
        simp only [List.map_cons, List.nodup_cons] at hnd
        have : a.1 = k := by rw [← heq]
        apply hnd.1
        rw [this, ← hkk]
        exact List.mem_map_of_mem Prod.fst hkv
      rw [qlookup_foldl_setParam_other t _ k hk]
      rw [← heq]
      exact qlookup_setParam_same acc k v
    · apply ih _ k v ?_ hm2
      simp only [List.map_cons, List.nodup_cons] at hnd
      exact hnd.2

theorem mergeQuery_keys_nodup (impQ curQ : Query)
    (h1 : (impQ.map Prod.fst).Nodup) (h2 : (curQ.map Prod.fst).Nodup) :
    ((mergeQuery impQ curQ).map Prod.fst).Nodup := by
  unfold mergeQuery
  rw [List.map_append]
  apply List.Nodup.append
  · rw [List.map_map]
    have hc : (Prod.fst ∘ fun kv : String × String =>
        (kv.1, (qlookup curQ kv.1).getD kv.2)) = Prod.fst := rfl
    rw [hc]
    exact h1
  · exact ((List.filter_sublist curQ).map Prod.fst).nodup h2
  · intro a ha1 ha2
    rw [List.map_map] at ha1
    have hc : (Prod.fst ∘ fun kv : String × String =>
        (kv.1, (qlookup curQ kv.1).getD kv.2)) = Prod.fst := rfl
    rw [hc] at ha1
    obtain ⟨kv, hkvmem, hkva⟩ := List.mem_map.mp ha2
    have hkvf := List.mem_filter.mp hkvmem
    have hnone : qlookup impQ kv.1 = none := by
      have := hkvf.2
      simpa using this
    obtain ⟨kv2, hkv2mem, hkv2a⟩ := List.mem_map.mp ha1
    have := (qlookup_eq_none impQ kv.1).mp hnone kv2 hkv2mem
    rw [hkv2a, ← hkva] at this
    exact this rfl

/-- C5 (amended): the query recovered from the prior impression row is
merged beneath the current query (current entries take precedence, keys
absent from the current query inherit the impression value), and the
Location query of the click-out 302 carries every merged entry whose key
is not one of the three tracking parameters, plus click_id, impression_id
and session_id, which are set last and override any same-named merged
entry. -/
theorem c5_click_merge (destParams impQ curQ : Query)
    (clickId impressionId sessionId : String)
    (himp : (impQ.map Prod.fst).Nodup) (hcur : (curQ.map Prod.fst).Nodup) :
    (∀ k v, qlookup curQ k = some v → qlookup (mergeQuery impQ curQ) k = some v) ∧
    (∀ k, qlookup curQ k = none →
      qlookup (mergeQuery impQ curQ) k = qlookup impQ k) ∧
    (∀ k v, (k, v) ∈ mergeQuery impQ curQ →
      k ≠ "click_id" → k ≠ "impression_id" → k ≠ "session_id" →
      qlookup (buildClickRedirectParams destParams impQ curQ clickId impressionId
        sessionId) k = some v) ∧
    qlookup (buildClickRedirectParams destParams impQ curQ clickId impressionId
      sessionId) "click_id" = some clickId ∧
    qlookup (buildClickRedirectParams destParams impQ curQ clickId impressionId
      sessionId) "impression_id" = some impressionId ∧
    qlookup (buildClickRedirectParams destParams impQ curQ clickId impressionId
      sessionId) "session_id" = some sessionId := by
  refine ⟨fun k v hv => qlookup_mergeQuery_cur impQ curQ k v hv,
    fun k hv => qlookup_mergeQuery_imp impQ curQ k hv, ?_, ?_, ?_, ?_⟩
  · intro k v hm hk1 hk2 hk3
    unfold buildClickRedirectParams
    rw [qlookup_setParam_other _ _ _ _ hk3, qlookup_setParam_other _ _ _ _ hk2,
      qlookup_setParam_other _ _ _ _ hk1]
    exact qlookup_foldl_setParam_mem _ _ k v (mergeQuery_keys_nodup impQ curQ himp hcur) hm
  · unfold buildClickRedirectParams
    rw [qlookup_setParam_other _ _ _ _ (by decide), qlookup_setParam_other _ _ _ _ (by decide)]
    exact qlookup_setParam_same _ _ _
  · unfold buildClickRedirectParams
    rw [qlookup_setParam_other _ _ _ _ (by decide)]
    exact qlookup_setParam_same _ _ _
  · unfold buildClickRedirectParams
    exact qlookup_setParam_same _ _ _

/-- C5 counterexample to the claim as stated: when the current query
itself carries a click_id entry, the final tracking-parameter set
overwrites it, so the Location query does not contain that merged entry. -/
theorem c5_click_merge_counterexample :
    mergeQuery [] [("click_id", "x")] = [("click_id", "x")] ∧
      qlookup (buildClickRedirectParams [] [] [("click_id", "x")]
        "click-1" "imp-1" "sess-1") "click_id" = some "click-1" ∧
      ("click-1" : String) ≠ "x" := by
  refine ⟨rfl, by decide, by decide⟩

/-- C5 witness: the amended theorem applied to an impression query gclid=G
and a current query foo=bar: both survive into the Location query next to
the three tracking parameters, and the merge precedence holds. -/
theorem c5_click_merge_witness :
    qlookup (buildClickRedirectParams [] [("gclid", "G")] [("foo", "bar")]
        "click-1" "imp-1" "sess-1") "gclid" = some "G" ∧
      qlookup (buildClickRedirectParams [] [("gclid", "G")] [("foo", "bar")]
        "click-1" "imp-1" "sess-1") "foo" = some "bar" ∧
      qlookup (buildClickRedirectParams [] [("gclid", "G")] [("foo", "bar")]
        "click-1" "imp-1" "sess-1") "click_id" = some "click-1" ∧
      qlookup (buildClickRedirectParams [] [("gclid", "G")] [("foo", "bar")]
        "click-1" "imp-1" "sess-1") "impression_id" = some "imp-1" ∧
      qlookup (buildClickRedirectParams [] [("gclid", "G")] [("foo", "bar")]
        "click-1" "imp-1" "sess-1") "session_id" = some "sess-1" := by
  have h := c5_click_merge [] [("gclid", "G")] [("foo", "bar")]
    "click-1" "imp-1" "sess-1" (by decide) (by decide)
  exact ⟨h.2.2.1 "gclid" "G" (by decide) (by decide) (by decide) (by decide),
    h.2.2.1 "foo" "bar" (by decide) (by decide) (by decide) (by decide),
    h.2.2.2.1, h.2.2.2.2.1, h.2.2.2.2.2⟩

/-- C8 (amended): impression and click rows are skipped when the
campaignId is empty (or trims to empty), and emitted otherwise; conversion
rows are always handed to the store, with a null campaign column when the
campaignId is empty, so the orphan guard does not cover conversions. -/
theorem c8_orphan_guard :
    (∀ e : StoreEventInput,
      (e.campaignId = "" ∨ strTrim e.campaignId = "") → storeEvent e = none) ∧
    (∀ e : StoreEventInput,
      ¬ (e.campaignId = "" ∨ strTrim e.campaignId = "") → (storeEvent e).isSome) ∧
    (∀ c : StoreConversionInput, (storeConversion c).isSome) := by
  refine ⟨?_, ?_, ?_⟩
  · intro e h
    simp [storeEvent, h]
  · intro e h
    simp [storeEvent, h]
  · intro c
    simp [storeConversion]

/-- C8 counterexample to the claim as stated: a conversion row with an
empty campaignId is still handed to the store (with a null campaign
column), so emission is not skipped for every event kind. -/
theorem c8_orphan_guard_counterexample :
    (storeConversion exOrphanConversion).isSome = true ∧
      exOrphanConversion.campaignId = "" ∧
      (storeConversion exOrphanConversion).map EventsRow.is_conversion = some true := by
  refine ⟨rfl, rfl, rfl⟩

/-- C8 witness: the amended theorem applied to a concrete orphan
impression (skipped) and a concrete non-orphan impression (emitted). -/
theorem c8_orphan_guard_witness :
    storeEvent exOrphanEvent = none ∧ (storeEvent exOkEvent).isSome := by
  refine ⟨c8_orphan_guard.1 exOrphanEvent (Or.inl rfl),
    c8_orphan_guard.2.1 exOkEvent ?_⟩
  intro h
  rcases h with h | h
  · exact absurd h (by decide)
  · exact absurd h (by decide)

/-- C1 witness: on the concrete fixture with bundles stored at
host/products/item and host/products, resolution of /products/item/sub
agrees with the candidate-list lookup, picks the deeper key, and the
non-root path cannot hit the bare host key. -/
theorem c1_rule_resolution_witness :
    (getKVRule exKV ("host").data ("/products/item/sub").data =
        firstHit exKV (ruleLookupKeys ("host").data ("/products/item/sub").data) ∧
      (("/products/item/sub").data ≠ ['/'] →
        ∀ r key, getKVRule exKV ("host").data ("/products/item/sub").data = some (r, key) →
          key ≠ ("host").data)) ∧
    getKVRule exKV ("host").data ("/products/item/sub").data =
      some (1, ("host/products/item").data) := by
  refine ⟨c1_rule_resolution exKV ("host").data ("/products/item/sub").data (by decide), ?_⟩
  decide

/-! ### C7: behavior of the macro scanners -/

lemma protectEsc_nil (k : Nat) : protectEsc k [] = ([], []) := by
  simp [protectEsc]

lemma protectEsc_cons_lit (k : Nat) (c : Char) (rest : Str) (hc : c ≠ '{') :
    protectEsc k (c :: rest) =
      (c :: (protectEsc k rest).1, (protectEsc k rest).2) := by
  rw [protectEsc]
  simp [hc]

lemma protectEsc_cons_not_esc (k : Nat) (rest : Str)
    (h : rest.take 2 ≠ ['{', '!']) :
    protectEsc k ('{' :: rest) =
      ('{' :: (protectEsc k rest).1, (protectEsc k rest).2) := by
  rw [protectEsc]
  simp [h]

lemma protectEsc_append_lit (k : Nat) (l rest : Str)
    (hl : ∀ c ∈ l, c ≠ '{') :
    protectEsc k (l ++ rest) =
      (l ++ (protectEsc k rest).1, (protectEsc k rest).2) := by
  induction l with
  | nil => simp
  | cons c t ih =>
    have hc : c ≠ '{' := hl c (by simp)
    have ht : ∀ a ∈ t, a ≠ '{' := fun a ha => hl a (by simp [ha])
    rw [List.cons_append, protectEsc_cons_lit k c (t ++ rest) hc, ih ht]
    simp

lemma protectEsc_esc (k : Nat) (x rest : Str) (hx : x ≠ [])
    (hxn : ∀ c ∈ x, c ≠ '}') :
    protectEsc k ('{' :: '{' :: '!' :: (x ++ '}' :: '}' :: rest)) =
      (placeholderOf x k ++ (protectEsc (k + 1) rest).1,
       (placeholderOf x k, '{' :: '{' :: (x ++ ['}', '}'])) ::
         (protectEsc (k + 1) rest).2) := by
  rw [protectEsc]
  have hpos : ∀ a ∈ x, (fun c => decide (c ≠ '}')) a = true := fun a ha => by
    simpa using hxn a ha
  simp only [List.take_succ_cons, List.drop_succ_cons, List.drop_zero]
  rw [List.takeWhile_append_of_pos hpos, List.dropWhile_append_of_pos hpos]
  simp [hx]

lemma protectEsc_tok (k : Nat) (a : Char) (x rest : Str)
    (ha1 : a ≠ '!') (ha2 : a ≠ '{') (hxn : ∀ c ∈ x, c ≠ '{') :
    protectEsc k ('{' :: '{' :: (a :: x ++ '}' :: '}' :: rest)) =
      ('{' :: '{' :: (a :: x ++ '}' :: '}' :: (protectEsc k rest).1),
       (protectEsc k rest).2) := by
  have s1 : protectEsc k ('{' :: '{' :: (a :: x ++ '}' :: '}' :: rest)) =
      ('{' :: (protectEsc k ('{' :: (a :: x ++ '}' :: '}' :: rest))).1,
       (protectEsc k ('{' :: (a :: x ++ '}' :: '}' :: rest))).2) := by
    apply protectEsc_cons_not_esc
    intro hEq
    simp only [List.cons_append, List.take_succ_cons] at hEq
    have := (List.cons_eq_cons.mp hEq).2
    have := (List.cons_eq_cons.mp this).1
    exact ha1 this
  have s2 : protectEsc k ('{' :: (a :: x ++ '}' :: '}' :: rest)) =
      ('{' :: (protectEsc k (a :: x ++ '}' :: '}' :: rest)).1,
       (protectEsc k (a :: x ++ '}' :: '}' :: rest)).2) := by
    apply protectEsc_cons_not_esc
    intro hEq
    simp only [List.cons_append, List.take_succ_cons] at hEq
    exact ha2 (List.cons_eq_cons.mp hEq).1
  have s3 : protectEsc k (a :: x ++ '}' :: '}' :: rest) =
      ((a :: x) ++ (protectEsc k ('}' :: '}' :: rest)).1,
       (protectEsc k ('}' :: '}' :: rest)).2) := by
    have := protectEsc_append_lit k (a :: x) ('}' :: '}' :: rest)
      (by intro c hc; rcases List.mem_cons.mp hc with rfl | hmem
          · exact ha2
          · exact hxn c hmem)
    simpa using this
  have s4 : protectEsc k ('}' :: '}' :: rest) =
      ('}' :: '}' :: (protectEsc k rest).1, (protectEsc k rest).2) := by
    rw [protectEsc_cons_lit k _ _ (by decide), protectEsc_cons_lit k _ _ (by decide)]
  rw [s1, s2, s3, s4]

lemma replaceTokens_nil (subst : String → Option Str) :
    replaceTokens subst [] = [] := by
  simp [replaceTokens]

lemma replaceTokens_cons_lit (subst : String → Option Str) (c : Char)
    (rest : Str) (hc : c ≠ '{') :
    replaceTokens subst (c :: rest) = c :: replaceTokens subst rest := by
  rw [replaceTokens]
  simp [hc]

lemma replaceTokens_append_lit (subst : String → Option Str) (l rest : Str)
    (hl : ∀ c ∈ l, c ≠ '{') :
    replaceTokens subst (l ++ rest) = l ++ replaceTokens subst rest := by
  induction l with
  | nil => simp
  | cons c t ih =>
    have hc : c ≠ '{' := hl c (by simp)
    have ht : ∀ a ∈ t, a ≠ '{' := fun a ha => hl a (by simp [ha])
    rw [List.cons_append, replaceTokens_cons_lit subst c (t ++ rest) hc, ih ht]
    rfl

lemma replaceTokens_all_lit (subst : String → Option Str) (l : Str)
    (hl : ∀ c ∈ l, c ≠ '{') : replaceTokens subst l = l := by
  have := replaceTokens_append_lit subst l [] hl
  simpa [replaceTokens_nil] using this

lemma replaceTokens_tok_some (subst : String → Option Str) (r rest out : Str)
    (hr : r ≠ []) (hrn : ∀ c ∈ r, c ≠ '}')
    (hsub : subst (String.mk r) = some out) :
    replaceTokens subst ('{' :: '{' :: (r ++ '}' :: '}' :: rest)) =
      out ++ replaceTokens subst rest := by
  rw [replaceTokens]
  have hpos : ∀ a ∈ r, (fun c => decide (c ≠ '}')) a = true := fun a ha => by
    simpa using hrn a ha
  simp only [List.take_succ_cons, List.drop_succ_cons, List.drop_zero]
  rw [List.takeWhile_append_of_pos hpos, List.dropWhile_append_of_pos hpos]
  simp [hr, hsub]

lemma replaceTokens_tok_none (subst : String → Option Str) (r rest : Str)
    (hr : r ≠ []) (hrn : ∀ c ∈ r, c ≠ '}')
    (hsub : subst (String.mk r) = none) :
    replaceTokens subst ('{' :: '{' :: (r ++ '}' :: '}' :: rest)) =
      '{' :: '{' :: (r ++ '}' :: '}' :: replaceTokens subst rest) := by
  rw [replaceTokens]
  have hpos : ∀ a ∈ r, (fun c => decide (c ≠ '}')) a = true := fun a ha => by
    simpa using hrn a ha
  simp only [List.take_succ_cons, List.drop_succ_cons, List.drop_zero]
  rw [List.takeWhile_append_of_pos hpos, List.dropWhile_append_of_pos hpos]
  simp [hr, hsub]

lemma replaceAllL_nil (pat rep : Str) : replaceAllL pat rep [] = [] := by
  simp [replaceAllL]

lemma replaceAllL_cons_miss (pat rep : Str) (c : Char) (rest : Str)
    (h : ¬ pat.isPrefixOf (c :: rest)) :
    replaceAllL pat rep (c :: rest) = c :: replaceAllL pat rep rest := by
  rw [replaceAllL]
  simp [h]

lemma replaceAllL_append_miss (pat rep : Str) (l rest : Str)
    (hh : pat.head? = some '_') (hl : ∀ c ∈ l, c ≠ '_') :
    replaceAllL pat rep (l ++ rest) = l ++ replaceAllL pat rep rest := by
  induction l with
  | nil => simp
  | cons c t ih =>
    have hc : c ≠ '_' := hl c (by simp)
    have ht : ∀ a ∈ t, a ≠ '_' := fun a ha => hl a (by simp [ha])
    have hmiss : ¬ pat.isPrefixOf (c :: (t ++ rest)) = true := by
      cases hp : pat with
      | nil => rw [hp] at hh; simp at hh
      | cons a pt =>
        have ha : a = '_' := by rw [hp] at hh; simpa using hh
        subst ha
        simp [List.isPrefixOf, Ne.symm hc]
    rw [List.cons_append, replaceAllL_cons_miss pat rep c (t ++ rest) hmiss, ih ht]
    rfl

lemma replaceAllL_exact (pat rep rest : Str) (hpat : pat ≠ []) :
    replaceAllL pat rep (pat ++ rest) = rep ++ replaceAllL pat rep rest := by
  cases hp : pat with
  | nil => exact absurd hp hpat
  | cons a pt =>
    rw [List.cons_append, replaceAllL]
    have hpre : (a :: pt).isPrefixOf (a :: (pt ++ rest)) :=
      List.isPrefixOf_iff_prefix.mpr (by
        rw [← List.cons_append]
        exact List.prefix_append _ _)
    rw [dif_pos ⟨by simp, hpre⟩]
    have hdrop : (a :: (pt ++ rest)).drop (a :: pt).length = rest := by
      rw [← List.cons_append]
      exact List.drop_left _ _
    rw [hdrop]

lemma natDecimal_isDigit (n : Nat) : ∀ c ∈ natDecimal n, c.isDigit = true := by
  induction n using Nat.strong_induction_on with
  | _ n ih =>
    rw [natDecimal]
    split
    · rename_i h
      intro c hc
      simp only [List.mem_singleton] at hc
      subst hc
      interval_cases n <;> decide
    · rename_i h
      intro c hc
      rcases List.mem_append.mp hc with h1 | h2
      · exact ih (n / 10) (by omega) c h1
      · simp only [List.mem_singleton] at h2
        subst h2
        have hm : n % 10 < 10 := Nat.mod_lt _ (by norm_num)
        set m := n % 10 with hmdef
        clear_value m
        interval_cases m <;> decide

lemma sanitizeChar_word (c : Char) :
    sanitizeChar c ≠ '{' ∧ sanitizeChar c ≠ '}' := by
  unfold sanitizeChar
  split
  · rename_i h
    constructor
    · intro hc
      rw [hc] at h
      revert h
      decide
    · intro hc
      rw [hc] at h
      revert h
      decide
  · exact ⟨by decide, by decide⟩

lemma isDigit_not_special (c : Char) (hd : c.isDigit = true) :
    c ≠ '{' ∧ c ≠ '}' ∧ c ≠ '_' := by
  refine ⟨?_, ?_, ?_⟩ <;> intro hc <;> rw [hc] at hd <;> exact absurd hd (by decide)

lemma escPrefix_data : ("__ESC_").data = ['_', '_', 'E', 'S', 'C', '_'] := rfl

lemma placeholderOf_ne_brace (x : Str) (k : Nat) :
    ∀ c ∈ placeholderOf x k, c ≠ '{' := by
  have hA : ∀ c ∈ ("__ESC_").data, c ≠ '{' := by
    rw [escPrefix_data]; decide
  have hB : ∀ c ∈ x.map sanitizeChar, c ≠ '{' := by
    intro c hc
    rcases List.mem_map.mp hc with ⟨a, _, ha⟩
    rw [← ha]
    exact (sanitizeChar_word a).1
  have hE : ∀ c ∈ '_' :: natDecimal k, c ≠ '{' := by
    intro c hc
    rcases List.mem_cons.mp hc with rfl | h
    · decide
    · exact (isDigit_not_special c (natDecimal_isDigit k c h)).1
  have hD : ∀ c ∈ ("__").data, c ≠ '{' := by
    have h2 : ("__").data = ['_', '_'] := rfl
    rw [h2]; decide
  intro c hc
  unfold placeholderOf at hc
  simp only [List.mem_append] at hc
  casesm* _ ∨ _ <;>
    first
    | exact hA _ (by assumption)
    | exact hB _ (by assumption)
    | exact hE _ (by assumption)
    | exact hD _ (by assumption)

lemma placeholderOf_head (x : Str) (k : Nat) :
    (placeholderOf x k).head? = some '_' := rfl

lemma placeholderOf_ne_nil (x : Str) (k : Nat) : placeholderOf x k ≠ [] := by
  intro h
  have := placeholderOf_head x k
  rw [h] at this
  simp at this

lemma isAlphanum_not_special (c : Char) (h : c.isAlphanum = true) :
    c ≠ '{' ∧ c ≠ '}' ∧ c ≠ '!' ∧ c ≠ '_' := by
  refine ⟨?_, ?_, ?_, ?_⟩ <;> intro hc <;> rw [hc] at h <;> exact absurd h (by decide)

lemma isEmpty_false_of_ne_nil (vs : List (String × String)) (h : vs ≠ []) :
    vs.isEmpty = false := by
  cases vs with
  | nil => exact absurd rfl h
  | cons a t => rfl

lemma protectEsc_id_of_lit (k : Nat) (l : Str) (hl : ∀ c ∈ l, c ≠ '{') :
    protectEsc k l = (l, []) := by
  have := protectEsc_append_lit k l [] hl
  simpa [protectEsc_nil] using this

lemma replaceAllL_id_of_miss (pat rep l : Str) (hh : pat.head? = some '_')
    (hl : ∀ c ∈ l, c ≠ '_') : replaceAllL pat rep l = l := by
  have := replaceAllL_append_miss pat rep l [] hh hl
  simpa [replaceAllL_nil] using this

/-- C7: what macro expansion actually guarantees about escaped and unknown
tokens, on inputs where the token is delimited by brace-free text.  HTML
expansion (replaceMacros) maps an escaped token to the literal token when
the variables map is nonempty, and leaves an unknown token verbatim; URL
expansion (replaceMacrosInUrlCore) leaves an unknown token verbatim but
has no escape-processing step at all, so an escaped token survives with
its bang, not as the literal token the claim states. -/
theorem c7_macro_escape :
    (∀ (p q x : Str) (vs : List (String × String)),
      vs ≠ [] →
      (∀ c ∈ p, c ≠ '{' ∧ c ≠ '_') →
      (∀ c ∈ q, c ≠ '{' ∧ c ≠ '_') →
      x ≠ [] → (∀ c ∈ x, c.isAlphanum = true) →
      replaceMacros (String.mk (p ++ '{' :: '{' :: '!' :: (x ++ '}' :: '}' :: q))) vs
        = String.mk (p ++ '{' :: '{' :: (x ++ '}' :: '}' :: q)))
    ∧
    (∀ (p q x : Str) (vs : List (String × String)),
      vs ≠ [] →
      (∀ c ∈ p, c ≠ '{') → (∀ c ∈ q, c ≠ '{') →
      x ≠ [] → (∀ c ∈ x, c.isAlphanum = true) →
      lookupMacro vs (String.mk x) = none →
      replaceMacros (String.mk (p ++ '{' :: '{' :: (x ++ '}' :: '}' :: q))) vs
        = String.mk (p ++ '{' :: '{' :: (x ++ '}' :: '}' :: q)))
    ∧
    (∀ (p q x : Str) (vs : List (String × String)),
      (∀ c ∈ p, c ≠ '{') → (∀ c ∈ q, c ≠ '{') →
      x ≠ [] → (∀ c ∈ x, c ≠ '}') →
      lookupMacro vs (String.mk x) = none →
      replaceMacrosInUrlCore (String.mk (p ++ '{' :: '{' :: (x ++ '}' :: '}' :: q))) vs
        = String.mk (p ++ '{' :: '{' :: (x ++ '}' :: '}' :: q)))
    ∧
    (∀ (p q x : Str) (vs : List (String × String)),
      (∀ c ∈ p, c ≠ '{') → (∀ c ∈ q, c ≠ '{') →
      (∀ c ∈ x, c ≠ '}') →
      lookupMacro vs (String.mk ('!' :: x)) = none →
      replaceMacrosInUrlCore
          (String.mk (p ++ '{' :: '{' :: ('!' :: x ++ '}' :: '}' :: q))) vs
        = String.mk (p ++ '{' :: '{' :: ('!' :: x ++ '}' :: '}' :: q))) := by
  refine ⟨?_, ?_, ?_, ?_⟩
  · intro p q x vs hvs hp hq hx hxal
    have hpne : ∀ c ∈ p, c ≠ '{' := fun c hc => (hp c hc).1
    have hpus : ∀ c ∈ p, c ≠ '_' := fun c hc => (hp c hc).2
    have hqne : ∀ c ∈ q, c ≠ '{' := fun c hc => (hq c hc).1
    have hqus : ∀ c ∈ q, c ≠ '_' := fun c hc => (hq c hc).2
    have hxn : ∀ c ∈ x, c ≠ '}' :=
      fun c hc => (isAlphanum_not_special c (hxal c hc)).2.1
    have hstep1 : protectEsc 0 (p ++ '{' :: '{' :: '!' :: (x ++ '}' :: '}' :: q))
        = (p ++ (placeholderOf x 0 ++ q),
           [(placeholderOf x 0, '{' :: '{' :: (x ++ ['}', '}']))]) := by
      rw [protectEsc_append_lit 0 p _ hpne, protectEsc_esc 0 x q hx hxn,
          protectEsc_id_of_lit 1 q hqne]
    have hstep2 : replaceTokens (fun name => (lookupMacro vs name).map String.data)
        (p ++ (placeholderOf x 0 ++ q)) = p ++ (placeholderOf x 0 ++ q) := by
      apply replaceTokens_all_lit
      intro c hc
      rcases List.mem_append.mp hc with h | h
      · exact hpne c h
      · rcases List.mem_append.mp h with h | h
        · exact placeholderOf_ne_brace x 0 c h
        · exact hqne c h
    have hstep3 : replaceAllL (placeholderOf x 0) ('{' :: '{' :: (x ++ ['}', '}']))
        (p ++ (placeholderOf x 0 ++ q))
        = p ++ ('{' :: '{' :: (x ++ ['}', '}']) ++ q) := by
      rw [replaceAllL_append_miss _ _ p _ (placeholderOf_head x 0) hpus,
          replaceAllL_exact _ _ q (placeholderOf_ne_nil x 0),
          replaceAllL_id_of_miss _ _ q (placeholderOf_head x 0) hqus]
    simp only [replaceMacros, isEmpty_false_of_ne_nil vs hvs, Bool.false_eq_true,
      if_false]
    rw [hstep1]
    simp only [List.foldl]
    rw [hstep2, hstep3]
    simp [List.append_assoc]
  · intro p q x vs hvs hp hq hx hxal hlook
    have hxn : ∀ c ∈ x, c ≠ '}' :=
      fun c hc => (isAlphanum_not_special c (hxal c hc)).2.1
    have hxb : ∀ c ∈ x, c ≠ '{' :=
      fun c hc => (isAlphanum_not_special c (hxal c hc)).1
    have hstep1 : protectEsc 0 (p ++ '{' :: '{' :: (x ++ '}' :: '}' :: q))
        = (p ++ '{' :: '{' :: (x ++ '}' :: '}' :: q), []) := by
      cases x with
      | nil => exact absurd rfl hx
      | cons a t =>
        have ha := isAlphanum_not_special a (hxal a (by simp))
        rw [protectEsc_append_lit 0 p _ hp,
            protectEsc_tok 0 a t q ha.2.2.1 ha.1
              (fun c hc => hxb c (by simp [hc])),
            protectEsc_id_of_lit 0 q hq]
    have hstep2 : replaceTokens (fun name => (lookupMacro vs name).map String.data)
        (p ++ '{' :: '{' :: (x ++ '}' :: '}' :: q))
        = p ++ '{' :: '{' :: (x ++ '}' :: '}' :: q) := by
      rw [replaceTokens_append_lit _ p _ hp,
          replaceTokens_tok_none _ x q hx hxn (by simp [hlook]),
          replaceTokens_all_lit _ q hq]
    simp only [replaceMacros, isEmpty_false_of_ne_nil vs hvs, Bool.false_eq_true,
      if_false]
    rw [hstep1]
    simp only [List.foldl]
    rw [hstep2]
  · intro p q x vs hp hq hx hxn hlook
    simp only [replaceMacrosInUrlCore]
    rw [replaceTokens_append_lit _ p _ hp,
        replaceTokens_tok_none _ x q hx hxn (by simp [hlook]),
        replaceTokens_all_lit _ q hq]
  · intro p q x vs hp hq hxn hlook
    simp only [replaceMacrosInUrlCore]
    rw [replaceTokens_append_lit _ p _ hp,
        replaceTokens_tok_none _ ('!' :: x) q (by simp)
          (by intro c hc
              rcases List.mem_cons.mp hc with rfl | h
              · decide
              · exact hxn c h)
          (by simp [hlook]),
        replaceTokens_all_lit _ q hq]

/-- C7 counterexample: the URL expander has no escape-processing step, so
on the input consisting of exactly one escaped token, with the escaped
name bound in the variables map, URL expansion returns the input
unchanged (bang included) instead of the literal token that HTML
expansion produces and that the claim requires. -/
theorem c7_macro_escape_counterexample :
    replaceMacrosInUrlCore "\x7b\x7b!x\x7d\x7d" [("x", "1")] = "\x7b\x7b!x\x7d\x7d" ∧
    ("\x7b\x7b!x\x7d\x7d" : String) ≠ "\x7b\x7bx\x7d\x7d" ∧
    replaceMacros "\x7b\x7b!x\x7d\x7d" [("x", "1")] = "\x7b\x7bx\x7d\x7d" := by
  refine ⟨?_, by decide, ?_⟩
  · show String.mk (replaceTokens
        (fun name => (lookupMacro [("x", "1")] name).map fun v =>
          (encodeURIComponent v).data)
        ('{' :: '{' :: (['!', 'x'] ++ '}' :: '}' :: []))) = "\x7b\x7b!x\x7d\x7d"
    rw [replaceTokens_tok_none _ ['!', 'x'] [] (by decide) (by decide) (by decide),
        replaceTokens_nil]
    rfl
  · have hstep1 : protectEsc 0 ('{' :: '{' :: '!' :: (['x'] ++ '}' :: '}' :: []))
        = (placeholderOf ['x'] 0,
           [(placeholderOf ['x'] 0, '{' :: '{' :: (['x'] ++ ['}', '}']))]) := by
      rw [protectEsc_esc 0 ['x'] [] (by decide) (by decide), protectEsc_nil]
      simp
    have hstep2 : replaceTokens
        (fun name => (lookupMacro [("x", "1")] name).map String.data)
        (placeholderOf ['x'] 0) = placeholderOf ['x'] 0 :=
      replaceTokens_all_lit _ _ (placeholderOf_ne_brace ['x'] 0)
    have hstep3 : replaceAllL (placeholderOf ['x'] 0)
        ('{' :: '{' :: (['x'] ++ ['}', '}'])) (placeholderOf ['x'] 0)
        = '{' :: '{' :: (['x'] ++ ['}', '}']) := by
      have h0 : replaceAllL (placeholderOf ['x'] 0)
          ('{' :: '{' :: (['x'] ++ ['}', '}']))
          (placeholderOf ['x'] 0 ++ [])
          = '{' :: '{' :: (['x'] ++ ['}', '}']) ++
              replaceAllL (placeholderOf ['x'] 0)
                ('{' :: '{' :: (['x'] ++ ['}', '}'])) [] :=
        replaceAllL_exact _ _ [] (placeholderOf_ne_nil ['x'] 0)
      simpa [replaceAllL_nil] using h0
    have hgoal : replaceMacros "\x7b\x7b!x\x7d\x7d" [("x", "1")]
        = String.mk (((protectEsc 0
              ('{' :: '{' :: '!' :: (['x'] ++ '}' :: '}' :: []))).2).foldl
            (fun acc pr => replaceAllL pr.1 pr.2 acc)
            (replaceTokens
              (fun name => (lookupMacro [("x", "1")] name).map String.data)
              (protectEsc 0
                ('{' :: '{' :: '!' :: (['x'] ++ '}' :: '}' :: []))).1)) := rfl
    rw [hgoal, hstep1]
    simp only [List.foldl]
    rw [hstep2, hstep3]
    rfl

/-- C7 witness: each conjunct of the amended theorem applied at concrete
inputs with its hypotheses discharged. -/
theorem c7_macro_escape_witness :
    (replaceMacros (String.mk (['a'] ++ '{' :: '{' :: '!' :: (['n'] ++ '}' :: '}' :: ['b'])))
        [("k", "v")]
      = String.mk (['a'] ++ '{' :: '{' :: (['n'] ++ '}' :: '}' :: ['b']))) ∧
    (replaceMacros (String.mk (['a'] ++ '{' :: '{' :: (['n'] ++ '}' :: '}' :: ['b'])))
        [("k", "v")]
      = String.mk (['a'] ++ '{' :: '{' :: (['n'] ++ '}' :: '}' :: ['b']))) ∧
    (replaceMacrosInUrlCore
        (String.mk (['a'] ++ '{' :: '{' :: (['n'] ++ '}' :: '}' :: ['b'])))
        [("k", "v")]
      = String.mk (['a'] ++ '{' :: '{' :: (['n'] ++ '}' :: '}' :: ['b']))) ∧
    (replaceMacrosInUrlCore
        (String.mk (['a'] ++ '{' :: '{' :: ('!' :: ['n'] ++ '}' :: '}' :: ['b'])))
        [("k", "v")]
      = String.mk (['a'] ++ '{' :: '{' :: ('!' :: ['n'] ++ '}' :: '}' :: ['b']))) :=
  ⟨c7_macro_escape.1 ['a'] ['b'] ['n'] [("k", "v")] (by decide) (by decide)
      (by decide) (by decide) (by decide),
   c7_macro_escape.2.1 ['a'] ['b'] ['n'] [("k", "v")] (by decide) (by decide)
      (by decide) (by decide) (by decide) (by decide),
   c7_macro_escape.2.2.1 ['a'] ['b'] ['n'] [("k", "v")] (by decide) (by decide)
      (by decide) (by decide) (by decide),
   c7_macro_escape.2.2.2 ['a'] ['b'] ['n'] [("k", "v")] (by decide) (by decide)
      (by decide) (by decide)⟩

/-! ### C4 / C9: redirect dispatch -/

lemma storeEvent_toList_sub (e : StoreEventInput) :
    (storeEvent e).toList.length ≤ 1 ∧
    ∀ row ∈ (storeEvent e).toList,
      row.event_id = e.eventId ∧ row.is_impression = e.isImpression ∧
      row.is_click = e.isClick := by
  unfold storeEvent
  split
  · simp
  · simp

/-- C4: in both redirect variants (the DNS redirect case and the embed
jsRedirect case), at most one event row is handed to the store, and any
stored row has isImpression and isClick both true and carries the single
event id (the request impressionId, or the fresh id when absent) that the
macro context equates with both the logical impressionId and the logical
clickId used to expand the redirect URL of the response. -/
theorem c4_redirect_event_identity
    (data : RequestData) (rule : RedirectRule) (ruleKey : Str)
    (payload : String) (vars : List (String × String))
    (plat : PlatformLookup) (freshEvt freshSession : String) :
    ((redirectDispatch data rule ruleKey payload vars plat freshEvt
        freshSession).2.length ≤ 1 ∧
     (∀ row ∈ (redirectDispatch data rule ruleKey payload vars plat freshEvt
          freshSession).2,
        row.is_impression = true ∧ row.is_click = true ∧
        row.event_id = jsOrStr data.impressionId freshEvt ∧
        (redirectMacroContext rule data plat row.event_id
            (jsOrStr data.sessionId freshSession)).impressionId = some row.event_id ∧
        (redirectMacroContext rule data plat row.event_id
            (jsOrStr data.sessionId freshSession)).clickId = some row.event_id ∧
        ((redirectDispatch data rule ruleKey payload vars plat freshEvt
            freshSession).1 =
          RedirectOutcome.http302 (replaceMacrosInUrl payload data vars
            (redirectMacroContext rule data plat row.event_id
              (jsOrStr data.sessionId freshSession))) ∨
         (redirectDispatch data rule ruleKey payload vars plat freshEvt
            freshSession).1 =
          RedirectOutcome.jsRedirectPage row.event_id
            (replaceMacrosInUrl payload data vars
              (redirectMacroContext rule data plat row.event_id
                (jsOrStr data.sessionId freshSession)))))) ∧
    ((jsRedirectDispatch data rule payload vars plat freshEvt
        freshSession).2.length ≤ 1 ∧
     ∀ row ∈ (jsRedirectDispatch data rule payload vars plat freshEvt
          freshSession).2,
        row.is_impression = true ∧ row.is_click = true ∧
        row.event_id = jsOrStr data.impressionId freshEvt ∧
        (jsRedirectDispatch data rule payload vars plat freshEvt
            freshSession).1 =
          RedirectOutcome.jsSnippet row.event_id
            (replaceMacrosInUrl payload data vars
              (redirectMacroContext rule data plat row.event_id
                (jsOrStr data.sessionId freshSession)))) := by
  refine ⟨?_, ?_⟩
  · unfold redirectDispatch
    by_cases hp : normalizeRedirectPath (rulePathOfKey ruleKey data.domain) ≠
        normalizeRedirectPath data.path
    · simp [hp]
    · rw [if_neg hp]
      unfold redirectServe
      by_cases hs : skipJSRedirect data.userAgent = true
      · simp only [hs, if_true]
        refine ⟨(storeEvent_toList_sub _).1, ?_⟩
        intro row hrow
        obtain ⟨he, hi, hc⟩ := (storeEvent_toList_sub _).2 row hrow
        simp only [redirectEventInput] at he hi hc
        exact ⟨hi, hc, he, rfl, rfl, Or.inl (by rw [he])⟩
      · simp only [Bool.not_eq_true] at hs
        simp only [hs, Bool.false_eq_true, if_false]
        refine ⟨(storeEvent_toList_sub _).1, ?_⟩
        intro row hrow
        obtain ⟨he, hi, hc⟩ := (storeEvent_toList_sub _).2 row hrow
        simp only [redirectEventInput] at he hi hc
        exact ⟨hi, hc, he, rfl, rfl, Or.inr (by rw [he])⟩
  · unfold jsRedirectDispatch
    refine ⟨(storeEvent_toList_sub _).1, ?_⟩
    intro row hrow
    obtain ⟨he, hi, hc⟩ := (storeEvent_toList_sub _).2 row hrow
    simp only [redirectEventInput] at he hi hc
    exact ⟨hi, hc, he, by rw [he]⟩

/-- C4 witness: the DNS-redirect conjunct applied at concrete fixtures
whose store accepts the row. -/
theorem c4_redirect_event_identity_witness :
    exRedirectRow.is_impression = true ∧
    exRedirectRow.is_click = true ∧
    exRedirectRow.event_id = jsOrStr exRedirectData.impressionId "f-1" ∧
    (redirectMacroContext exRedirectRule exRedirectData {}
        exRedirectRow.event_id
        (jsOrStr exRedirectData.sessionId "fs-1")).impressionId
      = some exRedirectRow.event_id ∧
    (redirectMacroContext exRedirectRule exRedirectData {}
        exRedirectRow.event_id
        (jsOrStr exRedirectData.sessionId "fs-1")).clickId
      = some exRedirectRow.event_id ∧
    ((redirectDispatch exRedirectData exRedirectRule ("ex.com/go").data "u" []
        {} "f-1" "fs-1").1 =
      RedirectOutcome.http302 (replaceMacrosInUrl "u" exRedirectData []
        (redirectMacroContext exRedirectRule exRedirectData {}
          exRedirectRow.event_id
          (jsOrStr exRedirectData.sessionId "fs-1"))) ∨
     (redirectDispatch exRedirectData exRedirectRule ("ex.com/go").data "u" []
        {} "f-1" "fs-1").1 =
      RedirectOutcome.jsRedirectPage exRedirectRow.event_id
        (replaceMacrosInUrl "u" exRedirectData []
          (redirectMacroContext exRedirectRule exRedirectData {}
            exRedirectRow.event_id
            (jsOrStr exRedirectData.sessionId "fs-1")))) :=
  (c4_redirect_event_identity exRedirectData exRedirectRule ("ex.com/go").data
    "u" [] {} "f-1" "fs-1").1.2 exRedirectRow (by decide)

/-- C9: when the normalized request path differs from the normalized path
of the rule key, the redirect dispatch serves the 404 page and hands no
event row to the store. -/
theorem c9_redirect_path_mismatch
    (data : RequestData) (rule : RedirectRule) (ruleKey : Str)
    (payload : String) (vars : List (String × String))
    (plat : PlatformLookup) (freshEvt freshSession : String)
    (h : normalizeRedirectPath (rulePathOfKey ruleKey data.domain) ≠
        normalizeRedirectPath data.path) :
    redirectDispatch data rule ruleKey payload vars plat freshEvt freshSession
      = (RedirectOutcome.notFoundPage, []) := by
  simp [redirectDispatch, h]

/-- C9 witness: a rule stored for /go answered with the 404 page and no
event on a request for /other. -/
theorem c9_redirect_path_mismatch_witness :
    redirectDispatch { exRedirectData with path := ['/', 'o', 't', 'h', 'e', 'r'] }
        exRedirectRule ("ex.com/go").data "u" [] {} "f-1" "fs-1"
      = (RedirectOutcome.notFoundPage, []) :=
  c9_redirect_path_mismatch _ _ _ _ _ _ _ _ (by decide)

/-! ### C6: session id determinism and the cf-header window -/

/-- C6: the sessionId is a deterministic function of the fingerprint
input (equal fingerprints give equal ids), and adding a cf-prefixed
header leaves the sessionId unchanged provided the request has at most
fourteen headers, so that the insertion does not shift the fifteen-name
window that is taken before the proxy-header filter. -/
theorem c6_session_id :
    (∀ d1 d2 : RequestData,
      fingerprintOf d1 = fingerprintOf d2 →
      generateSessionId d1 = generateSessionId d2) ∧
    (∀ (data : RequestData) (hdr1 hdr2 : List (String × String)) (hn hv : String),
      data.headers = hdr1 ++ hdr2 →
      hdr1.length + hdr2.length ≤ 14 →
      startsWithStr (toLowerStr hn) "cf-" = true →
      generateSessionId { data with headers := hdr1 ++ (hn, hv) :: hdr2 }
        = generateSessionId data) := by
  constructor
  · intro d1 d2 h
    unfold generateSessionId
    rw [h]
  · intro data hdr1 hdr2 hn hv hh hlen hcf
    have hhof : getHeaderOrderFingerprint (hdr1 ++ (hn, hv) :: hdr2)
        = getHeaderOrderFingerprint (hdr1 ++ hdr2) := by
      unfold getHeaderOrderFingerprint
      have hl1 : ((hdr1 ++ (hn, hv) :: hdr2).map (·.1)).length ≤ 15 := by
        simp only [List.length_map, List.length_append, List.length_cons]
        omega
      have hl2 : ((hdr1 ++ hdr2).map (·.1)).length ≤ 15 := by
        simp only [List.length_map, List.length_append]
        omega
      rw [List.take_of_length_le hl1, List.take_of_length_le hl2]
      simp only [List.map_append, List.map_cons, List.filter_append,
        List.filter_cons]
      simp [hcf]
    have hne : ∀ k : String, startsWithStr (toLowerStr k) "cf-" = false →
        (hn == k) = false := by
      intro k hk
      cases hbe : (hn == k) with
      | false => rfl
      | true =>
        have : hn = k := eq_of_beq hbe
        subst this
        rw [hcf] at hk
        exact absurd hk (by simp)
    have hlk : ∀ k : String, (hn == k) = false →
        lookupField (hdr1 ++ (hn, hv) :: hdr2) k = lookupField (hdr1 ++ hdr2) k := by
      intro k hk
      unfold lookupField
      rw [List.find?_append, List.find?_append, List.find?_cons]
      simp [hk]
    have hfc : fingerprintComponents { data with headers := hdr1 ++ (hn, hv) :: hdr2 }
        = fingerprintComponents data := by
      unfold fingerprintComponents
      rw [hh]
      simp [hhof,
        hlk _ (hne "accept" (by decide)),
        hlk _ (hne "accept-language" (by decide)),
        hlk _ (hne "accept-encoding" (by decide)),
        hlk _ (hne "sec-ch-ua" (by decide)),
        hlk _ (hne "sec-ch-ua-platform" (by decide)),
        hlk _ (hne "sec-ch-ua-mobile" (by decide)),
        hlk _ (hne "connection" (by decide)),
        hlk _ (hne "upgrade-insecure-requests" (by decide))]
    unfold generateSessionId fingerprintOf
    rw [hfc]

set_option maxRecDepth 100000 in
/-- C6 counterexample: the FNV-1a hash collides on the fingerprints of
the costarring/liquid pair, so equal sessionIds do not imply byte-equal
fingerprint inputs; and on a request already carrying fifteen headers,
adding one cf-prefixed header shifts the fifteen-name window taken before
the proxy filter and changes the sessionId. -/
theorem c6_session_id_counterexample :
    (fingerprintOf exFpCollide1 ≠ fingerprintOf exFpCollide2 ∧
     generateSessionId exFpCollide1 = generateSessionId exFpCollide2) ∧
    (exHdrDataCf.headers = ("cf-x", "1") :: exHdrData.headers ∧
     startsWithStr (toLowerStr "cf-x") "cf-" = true ∧
     generateSessionId exHdrDataCf ≠ generateSessionId exHdrData) :=
  ⟨⟨by decide, by decide⟩, rfl, by decide, by decide⟩

/-- C6 witness: both conjuncts of the amended theorem applied at concrete
inputs. -/
theorem c6_session_id_witness :
    generateSessionId exFpCollide1 = generateSessionId exFpCollide1 ∧
    generateSessionId { exSmallHdr with
        headers := [] ++ ("CF-Test", "z") :: [("h1", "v")] }
      = generateSessionId exSmallHdr :=
  ⟨c6_session_id.1 exFpCollide1 exFpCollide1 rfl,
   c6_session_id.2 exSmallHdr [] [("h1", "v")] "CF-Test" "z" (by decide)
     (by decide) (by decide)⟩

/-! ### C10: the proxy link-rewrite guard -/

/-- C10: for an a/link/iframe/form/embed element whose mapped URL
attribute is present, the handler leaves the element unchanged when the
value starts with mailto:, tel:, or a fragment marker, or when it is the
empty string (JS falsiness, an exception the claim misses); any other
value is replaced by its resolution against the upstream base. -/
theorem c10_proxy_rewrite_guard
    (el : ElementModel) (base attr v : String)
    (hattr : attributeMap el.tagName = some attr)
    (hval : lookupField el.attrs attr = some v) :
    ((startsWithStr v "mailto:" = true ∨ startsWithStr v "tel:" = true ∨
      startsWithStr v "#" = true ∨ v = "") →
      rewriteLinkElement base el = el) ∧
    (v ≠ "" → startsWithStr v "mailto:" = false → startsWithStr v "tel:" = false →
      startsWithStr v "#" = false →
      rewriteLinkElement base el =
        { el with attrs := setAttr el.attrs attr (rewriteUrl v base) }) := by
  constructor
  · intro hcase
    rcases hcase with h | h | h | h <;>
      simp [rewriteLinkElement, hattr, hval, h]
  · intro h0 h1 h2 h3
    simp [rewriteLinkElement, hattr, hval, h0, h1, h2, h3]

/-- C10 counterexample: an anchor with an empty href does not start with
mailto:, tel:, or a fragment marker, yet the handler leaves it unchanged
(JS falsiness guard), while the claimed rewrite would have produced the
nonempty resolved URL. -/
theorem c10_proxy_rewrite_guard_counterexample :
    attributeMap exEmptyHref.tagName = some "href" ∧
    lookupField exEmptyHref.attrs "href" = some "" ∧
    startsWithStr "" "mailto:" = false ∧
    startsWithStr "" "tel:" = false ∧
    startsWithStr "" "#" = false ∧
    rewriteLinkElement "https://up.example/dir/page" exEmptyHref = exEmptyHref ∧
    rewriteUrl "" "https://up.example/dir/page" ≠ "" := by
  decide

/-- C10 witness: both conjuncts of the guard theorem applied at concrete
elements. -/
theorem c10_proxy_rewrite_guard_witness :
    rewriteLinkElement "https://up.example/" exMailtoEl = exMailtoEl ∧
    rewriteLinkElement "https://up.example/" exPathEl =
      { exPathEl with
        attrs := setAttr exPathEl.attrs "action"
          (rewriteUrl "/x" "https://up.example/") } :=
  ⟨(c10_proxy_rewrite_guard exMailtoEl "https://up.example/" "href"
      "mailto:z@u.example" (by decide) (by decide)).1 (Or.inl (by decide)),
   (c10_proxy_rewrite_guard exPathEl "https://up.example/" "action" "/x"
      (by decide) (by decide)).2 (by decide) (by decide) (by decide) (by decide)⟩

end Dispatcher
